import Mathlib

/-!
Verification of the picross core library (crate `picore`).

The Rust source is shallowly embedded:
* `Cell`, `ConstraintEntry`, `Constraint`, `ConstraintGroup`, `Puzzle`, `Board`
  and `Picross` mirror the data model of `cell.rs`, `puzzle.rs`, `board.rs`
  and `picross.rs`.
* Fallible operations (Rust code that can panic on out-of-range indexing)
  are modelled with `Option`: a `none` result marks the panic.
* The iterator-based run matcher of `Puzzle::is_solved` is rendered as the
  structurally recursive pair `observedRuns`/`observedRunsGo` together with
  the element-wise comparison loop `matchEntries`.
-/

section DataModel

variable {C : Type} [DecidableEq C]

/-- `Cell<C>` from `cell.rs`: an empty, crossed out, or filled cell. -/
inductive Cell (C : Type) where
  | Empty : Cell C
  | CrossedOut : Cell C
  | Filled : C → Cell C
deriving DecidableEq, Repr

/-- `Cell::is_ignored` from `cell.rs`: whether the cell is ignored by constraints. -/
def Cell.is_ignored : Cell C → Bool
  | Cell.Empty => true
  | Cell.CrossedOut => true
  | Cell.Filled _ => false

/-- The value carried by a filled cell, `none` for the ignored cells.
Two cells with the same `toOpt` image are interchangeable for run matching. -/
def Cell.toOpt : Cell C → Option C
  | Cell.Empty => none
  | Cell.CrossedOut => none
  | Cell.Filled v => some v

/-- `ConstraintEntry<C>` from `puzzle.rs`: `size` contiguous cells equal to `value`. -/
structure ConstraintEntry (C : Type) where
  value : C
  size : Nat
deriving DecidableEq, Repr

/-- `Constraint<C>` from `puzzle.rs`: fully describes a row, column, etc. -/
abbrev Constraint (C : Type) := List (ConstraintEntry C)

/-- `ConstraintGroup<C>` from `puzzle.rs`: one constraint per row (or per column). -/
abbrev ConstraintGroup (C : Type) := List (Constraint C)

/-- `Puzzle<C>` from `puzzle.rs`. `Puzzle::new` stores both groups unchanged
and performs no validation, so the structure constructor stands for it. -/
structure Puzzle (C : Type) where
  row_constraints : ConstraintGroup C
  column_constraints : ConstraintGroup C
deriving DecidableEq, Repr

/-- `Board<C>` from `board.rs`: cells stored in row-major order. -/
structure Board (C : Type) where
  items : List (Cell C)
  width : Nat
  height : Nat
deriving DecidableEq, Repr

/-- `Board::new_empty(width, height)` from `board.rs`. -/
def Board.new_empty (width height : Nat) : Board C :=
  { items := List.replicate (width * height) Cell.Empty, width := width, height := height }

/-- `Board::row`: the slice `items[start..start+width]`; the Rust slicing
panics (`none`) when the range exceeds the vector. -/
def Board.row? (b : Board C) (index : Nat) : Option (List (Cell C)) :=
  if index * b.width + b.width ≤ b.items.length then
    some ((b.items.drop (index * b.width)).take b.width)
  else none

/-- One step of the strided `Column` iterator of `board.rs`, with fuel.
The iterator reads `items.get(i)` and advances by `width`; fuel
`items.length + 1` is enough for every terminating behaviour of the source
(the source iterator does not terminate when `width = 0` on a non-empty
vector, a combination the library never constructs since a width-0 board
has no items). -/
def Board.columnGo (b : Board C) : Nat → Nat → List (Cell C)
  | 0, _ => []
  | fuel + 1, i =>
    match b.items.get? i with
    | none => []
    | some c => c :: b.columnGo fuel (i + b.width)

/-- `Board::column`: the cells of column `index`, top to bottom. -/
def Board.column (b : Board C) (index : Nat) : List (Cell C) :=
  b.columnGo (b.items.length + 1) index

/-- `Board::get`: reads `items[(row * width) + col]`, `none` on the Rust panic. -/
def Board.get? (b : Board C) (row col : Nat) : Option (Cell C) :=
  b.items.get? (row * b.width + col)

/-- Writing through `Board::get_mut`: `none` on the Rust indexing panic. -/
def Board.set? (b : Board C) (row col : Nat) (c : Cell C) : Option (Board C) :=
  if row * b.width + col < b.items.length then
    some { b with items := b.items.set (row * b.width + col) c }
  else none

/-- Total in-range write (`List.set` ignores out-of-range indices; it agrees
with `Board.set?` whenever the latter succeeds). -/
def Board.setT (b : Board C) (row col : Nat) (c : Cell C) : Board C :=
  { b with items := b.items.set (row * b.width + col) c }

end DataModel

section RunMatcher

variable {C : Type} [DecidableEq C]

/-- The run grouping performed by the `batching` iterator inside
`Puzzle::is_solved` (`puzzle.rs`). The first argument is the run being
collected (`none` between runs): the source skips ignored cells until a
`Filled` cell starts a run, then peeks and extends the run exactly while
the next cell is `Filled` with an equal value. -/
def observedRunsAux : Option (C × Nat) → List (Cell C) → List (C × Nat)
  | none, [] => []
  | some (v, n), [] => [(v, n)]
  | none, Cell.Empty :: rest => observedRunsAux none rest
  | none, Cell.CrossedOut :: rest => observedRunsAux none rest
  | none, Cell.Filled v :: rest => observedRunsAux (some (v, 1)) rest
  | some (v, n), Cell.Empty :: rest => (v, n) :: observedRunsAux none rest
  | some (v, n), Cell.CrossedOut :: rest => (v, n) :: observedRunsAux none rest
  | some (v, n), Cell.Filled w :: rest =>
    if w = v then observedRunsAux (some (v, n + 1)) rest
    else (v, n) :: observedRunsAux (some (w, 1)) rest

/-- The ordered sequence of observed `(value, size)` runs of a line, as
produced by the batching iterator of `Puzzle::is_solved`. -/
def observedRuns (cells : List (Cell C)) : List (C × Nat) :=
  observedRunsAux none cells

/-- The comparison loop at the end of `Puzzle::is_solved`: element-wise
equality of expected entries and observed runs, failing as soon as either
sequence is longer or a pair differs. -/
def matchEntries : List (C × Nat) → List (C × Nat) → Bool
  | [], [] => true
  | _ :: _, [] => false
  | [], _ :: _ => false
  | e :: es, g :: gs => if e = g then matchEntries es gs else false

/-- The `(value, size)` pairs of a constraint, in order
(`constraint.iter().map(|c| (&c.value, c.size))` in the source). -/
def entriesOf (k : Constraint C) : List (C × Nat) :=
  k.map fun e => (e.value, e.size)

/-- `Puzzle::is_solved` from `puzzle.rs`: the line satisfies the constraint. -/
def lineSolved (k : Constraint C) (cells : List (Cell C)) : Bool :=
  matchEntries (entriesOf k) (observedRuns cells)

/-- `Puzzle::row_is_solved`: indexes the row constraint group, then the board row. -/
def Puzzle.row_is_solved? (p : Puzzle C) (b : Board C) (index : Nat) : Option Bool := do
  let k ← p.row_constraints.get? index
  let cells ← b.row? index
  pure (lineSolved k cells)

/-- `Puzzle::column_is_solved`: indexes the column constraint group, then
walks the column iterator. -/
def Puzzle.column_is_solved? (p : Puzzle C) (b : Board C) (index : Nat) : Option Bool := do
  let k ← p.column_constraints.get? index
  pure (lineSolved k (b.column index))

end RunMatcher

section SpecRuns

variable {C : Type} [DecidableEq C]

/-- Spec-worded run-length grouping: group consecutive equal elements into
maximal runs, recorded as `(value, length)`, starting a new run on every
value change. -/
def groupRuns {α : Type} [DecidableEq α] : List α → List (α × Nat)
  | [] => []
  | v :: rest =>
    match groupRuns rest with
    | [] => [(v, 1)]
    | (w, n) :: tail => if v = w then (v, n + 1) :: tail else (v, 1) :: (w, n) :: tail

/-- Spec-worded observed-run sequence (spec §4.1): skip the ignored cells,
group consecutive `Filled` cells carrying equal values into maximal runs,
with a run boundary on every gap of ignored cells and on every value
change. Grouping the `toOpt` projection keeps gaps as `none` runs, which
are then discarded. -/
def specRuns (cells : List (Cell C)) : List (C × Nat) :=
  (groupRuns (cells.map Cell.toOpt)).filterMap fun g =>
    match g with
    | (some v, n) => some (v, n)
    | (none, _) => none

theorem matchEntries_eq_true_iff (xs ys : List (C × Nat)) :
    matchEntries xs ys = true ↔ xs = ys := by
  induction xs generalizing ys with
  | nil => cases ys <;> simp [matchEntries]
  | cons x xs ih =>
    cases ys with
    | nil => simp [matchEntries]
    | cons y ys =>
      by_cases hxy : x = y
      · simp [matchEntries, hxy, ih]
      · simp [matchEntries, hxy]

theorem groupRuns_cons_def {α : Type} [DecidableEq α] (v : α) (rest : List α) :
    groupRuns (v :: rest) =
      match groupRuns rest with
      | [] => [(v, 1)]
      | (w, n) :: tail => if v = w then (v, n + 1) :: tail else (v, 1) :: (w, n) :: tail := by
  simp [groupRuns]

theorem groupRuns_head {α : Type} [DecidableEq α] (a : α) (l : List α) :
    ∃ n tail, groupRuns (a :: l) = (a, n) :: tail ∧ 1 ≤ n := by
  induction l generalizing a with
  | nil => exact ⟨1, [], by simp [groupRuns], by omega⟩
  | cons b l ih =>
    obtain ⟨n, tail, h, hn⟩ := ih b
    by_cases hab : a = b
    · subst hab
      refine ⟨n + 1, tail, ?_, by omega⟩
      rw [groupRuns_cons_def, h]
      simp
    · refine ⟨1, (b, n) :: tail, ?_, by omega⟩
      rw [groupRuns_cons_def, h]
      simp [hab]

theorem groupRuns_cons {α : Type} [DecidableEq α] (a : α) (l : List α) :
    groupRuns (a :: l) =
      (a, 1 + (l.takeWhile (fun b => b = a)).length) ::
        groupRuns (l.dropWhile (fun b => b = a)) := by
  induction l generalizing a with
  | nil => simp [groupRuns]
  | cons b rest ih =>
    by_cases hab : b = a
    · subst hab
      rw [groupRuns_cons_def, ih b]
      simp only [List.takeWhile_cons, List.dropWhile_cons]
      simp
      omega
    · obtain ⟨n, tail, hg, _⟩ := groupRuns_head b rest
      have hab' : ¬ a = b := fun h => hab h.symm
      rw [groupRuns_cons_def, hg]
      simp only [List.takeWhile_cons, List.dropWhile_cons]
      simp [hab, hab', hg]

theorem toOpt_eq_some_iff (c : Cell C) (v : C) :
    Cell.toOpt c = some v ↔ c = Cell.Filled v := by
  cases c <;> simp [Cell.toOpt]

theorem observedRunsAux_some (v : C) (l : List (Cell C)) :
    ∀ n, observedRunsAux (some (v, n)) l =
      (v, n + (l.takeWhile (fun c => c = Cell.Filled v)).length) ::
        observedRunsAux none (l.dropWhile (fun c => c = Cell.Filled v)) := by
  induction l with
  | nil => intro n; simp [observedRunsAux]
  | cons c rest ih =>
    intro n
    cases c with
    | Empty => simp [observedRunsAux, List.takeWhile_cons, List.dropWhile_cons]
    | CrossedOut => simp [observedRunsAux, List.takeWhile_cons, List.dropWhile_cons]
    | Filled w =>
      by_cases hw : w = v
      · subst hw
        simp only [observedRunsAux, if_pos rfl, ih (n + 1)]
        simp [List.takeWhile_cons, List.dropWhile_cons]
        omega
      · have hne : ¬ (Cell.Filled w = Cell.Filled v) := by simp [hw]
        simp only [observedRunsAux, if_neg hw]
        simp [List.takeWhile_cons, List.dropWhile_cons, hne, observedRunsAux]

/-- The discarding of ignored-cell runs used by `specRuns`. -/
def runFilter : Option C × Nat → Option (C × Nat)
  | (some v, n) => some (v, n)
  | (none, _) => none

theorem specRuns_eq_filterMap (cells : List (Cell C)) :
    specRuns cells = (groupRuns (cells.map Cell.toOpt)).filterMap runFilter := by
  unfold specRuns
  congr 1

theorem specRuns_ignored_cons (c : Cell C) (rest : List (Cell C))
    (hc : Cell.toOpt c = none) :
    specRuns (c :: rest) = specRuns rest := by
  rw [specRuns_eq_filterMap, specRuns_eq_filterMap]
  have hmap : (c :: rest).map Cell.toOpt = none :: rest.map Cell.toOpt := by
    simp [hc]
  rw [hmap]
  cases hg : groupRuns (rest.map Cell.toOpt) with
  | nil => simp [groupRuns, hg, runFilter]
  | cons g tail =>
    obtain ⟨w, n⟩ := g
    cases w with
    | none => simp [groupRuns, hg, runFilter]
    | some u => simp [groupRuns, hg, runFilter]

theorem length_dropWhile_le' {α : Type} (p : α → Bool) (l : List α) :
    (l.dropWhile p).length ≤ l.length := by
  induction l with
  | nil => simp
  | cons a l ih =>
    rw [List.dropWhile_cons]
    by_cases h : p a = true
    · rw [if_pos h]; simp only [List.length_cons]; omega
    · rw [if_neg h]

theorem takeWhile_map_toOpt (v : C) (l : List (Cell C)) :
    (l.map Cell.toOpt).takeWhile (fun o => o = some v) =
      (l.takeWhile (fun c => c = Cell.Filled v)).map Cell.toOpt := by
  induction l with
  | nil => simp
  | cons c rest ih =>
    simp only [List.map_cons, List.takeWhile_cons]
    by_cases hc : c = Cell.Filled v
    · subst hc
      simp [Cell.toOpt, ih]
    · have : ¬ (Cell.toOpt c = some v) := fun h => hc ((toOpt_eq_some_iff c v).mp h)
      simp [this, hc]

theorem dropWhile_map_toOpt (v : C) (l : List (Cell C)) :
    (l.map Cell.toOpt).dropWhile (fun o => o = some v) =
      (l.dropWhile (fun c => c = Cell.Filled v)).map Cell.toOpt := by
  induction l with
  | nil => simp
  | cons c rest ih =>
    simp only [List.map_cons, List.dropWhile_cons]
    by_cases hc : c = Cell.Filled v
    · subst hc
      simp [Cell.toOpt, ih]
    · have : ¬ (Cell.toOpt c = some v) := fun h => hc ((toOpt_eq_some_iff c v).mp h)
      simp [this, hc]

theorem observedRuns_eq_specRuns (l : List (Cell C)) : observedRuns l = specRuns l := by
  have H : ∀ n (l : List (Cell C)), l.length ≤ n → observedRuns l = specRuns l := by
    intro n
    induction n with
    | zero =>
      intro l hl
      have : l = [] := List.eq_nil_of_length_eq_zero (Nat.le_zero.mp hl)
      subst this
      simp [observedRuns, observedRunsAux, specRuns, groupRuns]
    | succ n ih =>
      intro l hl
      cases l with
      | nil => simp [observedRuns, observedRunsAux, specRuns, groupRuns]
      | cons c rest =>
        have hrest : rest.length ≤ n := by
          simp at hl; omega
        cases c with
        | Empty =>
          rw [specRuns_ignored_cons Cell.Empty rest rfl, ← ih rest hrest]
          simp [observedRuns, observedRunsAux]
        | CrossedOut =>
          rw [specRuns_ignored_cons Cell.CrossedOut rest rfl, ← ih rest hrest]
          simp [observedRuns, observedRunsAux]
        | Filled v =>
          have hdrop : (rest.dropWhile (fun c => c = Cell.Filled v)).length ≤ n :=
            le_trans (length_dropWhile_le' _ rest) hrest
          have lhs : observedRuns (Cell.Filled v :: rest) =
              (v, 1 + (rest.takeWhile (fun c => c = Cell.Filled v)).length) ::
                observedRuns (rest.dropWhile (fun c => c = Cell.Filled v)) := by
            simp [observedRuns, observedRunsAux, observedRunsAux_some v rest 1]
          have hmap : (Cell.Filled v :: rest).map Cell.toOpt =
              some v :: rest.map Cell.toOpt := by simp [Cell.toOpt]
          have rhs : specRuns (Cell.Filled v :: rest) =
              (v, 1 + (rest.takeWhile (fun c => c = Cell.Filled v)).length) ::
                specRuns (rest.dropWhile (fun c => c = Cell.Filled v)) := by
            rw [specRuns_eq_filterMap, hmap, groupRuns_cons]
            rw [takeWhile_map_toOpt, dropWhile_map_toOpt]
            simp only [List.filterMap_cons, runFilter, List.length_map]
            rw [specRuns_eq_filterMap]
          rw [lhs, rhs, ih _ hdrop]
  exact H l.length l le_rfl

end SpecRuns

section Controller

variable {C : Type} [DecidableEq C]

/-- `Picross<C>` from `picross.rs`. The `bitflags` option set holds the
single flag `AUTO_CROSS_COMPLETED`, modelled as the boolean `auto_cross`;
the `Status` bit vectors are modelled as boolean lists. -/
structure Picross (C : Type) where
  puzzle : Puzzle C
  board : Board C
  row_status : List Bool
  column_status : List Bool
  auto_cross : Bool
deriving DecidableEq, Repr

/-- `Picross::width`. -/
def Picross.width (p : Picross C) : Nat := p.board.width

/-- `Picross::height`. -/
def Picross.height (p : Picross C) : Nat := p.board.height

/-- `Picross::is_solved`: all row bits and all column bits set. -/
def Picross.is_solvedB (p : Picross C) : Bool :=
  p.row_status.all id && p.column_status.all id

/-- The auto-cross loop of `Picross::check_row` (`completed` branch):
`for c in 0..width`, an `Empty` cell is overwritten with `CrossedOut`. -/
def crossRowM (b : Board C) (row : Nat) : Option (Board C) :=
  (List.range b.width).foldlM
    (fun b c => do
      let cell ← b.get? row c
      if cell = Cell.Empty then b.set? row c Cell.CrossedOut else pure b)
    b

/-- The revert loop of `Picross::check_row` (not-`completed` branch):
`for c in 0..width`, a `CrossedOut` cell whose column is not currently
solved is reverted to `Empty`. -/
def revertRowM (puz : Puzzle C) (b : Board C) (row : Nat) : Option (Board C) :=
  (List.range b.width).foldlM
    (fun b c => do
      let cell ← b.get? row c
      if cell = Cell.CrossedOut then do
        let solved ← puz.column_is_solved? b c
        if solved then pure b else b.set? row c Cell.Empty
      else pure b)
    b

/-- Auto-cross loop of `Picross::check_column`. -/
def crossColM (b : Board C) (col : Nat) : Option (Board C) :=
  (List.range b.height).foldlM
    (fun b r => do
      let cell ← b.get? r col
      if cell = Cell.Empty then b.set? r col Cell.CrossedOut else pure b)
    b

/-- Revert loop of `Picross::check_column`. -/
def revertColM (puz : Puzzle C) (b : Board C) (col : Nat) : Option (Board C) :=
  (List.range b.height).foldlM
    (fun b r => do
      let cell ← b.get? r col
      if cell = Cell.CrossedOut then do
        let solved ← puz.row_is_solved? b r
        if solved then pure b else b.set? r col Cell.Empty
      else pure b)
    b

/-- `Picross::check_row`: recompute the row's solved bit (the `BitVec::set`
panics, hence `none`, on an out-of-range row) and run the auto-annotation
policy on the row. -/
def Picross.check_row? (p : Picross C) (row : Nat) : Option (Picross C) := do
  let completed ← p.puzzle.row_is_solved? p.board row
  if row < p.row_status.length then
    let p1 : Picross C := { p with row_status := p.row_status.set row completed }
    if p1.auto_cross then
      if completed then
        let b ← crossRowM p1.board row
        pure { p1 with board := b }
      else
        let b ← revertRowM p1.puzzle p1.board row
        pure { p1 with board := b }
    else
      pure p1
  else none

/-- `Picross::check_column`. -/
def Picross.check_column? (p : Picross C) (column : Nat) : Option (Picross C) := do
  let completed ← p.puzzle.column_is_solved? p.board column
  if column < p.column_status.length then
    let p1 : Picross C := { p with column_status := p.column_status.set column completed }
    if p1.auto_cross then
      if completed then
        let b ← crossColM p1.board column
        pure { p1 with board := b }
      else
        let b ← revertColM p1.puzzle p1.board column
        pure { p1 with board := b }
    else
      pure p1
  else none

/-- `Picross::check`: row re-check, then column re-check. -/
def Picross.check? (p : Picross C) (row column : Nat) : Option (Picross C) := do
  let p1 ← p.check_row? row
  p1.check_column? column

/-- `Picross::cross_out` (the returned solved flag is read off the
resulting state with `is_solvedB`). -/
def Picross.cross_out? (p : Picross C) (row column : Nat) : Option (Picross C) := do
  let b ← p.board.set? row column Cell.CrossedOut
  Picross.check? { p with board := b } row column

/-- `Picross::clear_at`. -/
def Picross.clear_at? (p : Picross C) (row column : Nat) : Option (Picross C) := do
  let b ← p.board.set? row column Cell.Empty
  Picross.check? { p with board := b } row column

/-- `Picross::place_at`. -/
def Picross.place_at? (p : Picross C) (value : C) (row column : Nat) : Option (Picross C) := do
  let b ← p.board.set? row column (Cell.Filled value)
  Picross.check? { p with board := b } row column

/-- `Picross::new`: note that the source passes
`(row_constraints.len(), column_constraints.len())` to
`Board::new_empty(width, height)`, so the board gets width `R` and height
`C`; the construction loops then check rows `0..height` and columns
`0..width`. -/
def Picross.new? (puzzle : Puzzle C) : Option (Picross C) := do
  let p0 : Picross C := {
    puzzle := puzzle
    board := Board.new_empty puzzle.row_constraints.length puzzle.column_constraints.length
    row_status := List.replicate puzzle.row_constraints.length false
    column_status := List.replicate puzzle.column_constraints.length false
    auto_cross := true }
  let p1 ← (List.range p0.height).foldlM (fun p r => p.check_row? r) p0
  (List.range p1.width).foldlM (fun p c => p.check_column? c) p1

/-- The three mutation operations of the controller. -/
inductive Mutation (C : Type) where
  | place : C → Mutation C
  | crossOut : Mutation C
  | clear : Mutation C
deriving DecidableEq, Repr

/-- Dispatch a mutation to the corresponding controller operation. -/
def Picross.mutate? (p : Picross C) (m : Mutation C) (row column : Nat) :
    Option (Picross C) :=
  match m with
  | Mutation.place v => p.place_at? v row column
  | Mutation.crossOut => p.cross_out? row column
  | Mutation.clear => p.clear_at? row column

/-- States reachable by constructing a controller and applying any sequence
of mutations at in-range coordinates. -/
inductive Reachable : Picross C → Prop where
  | init : ∀ (puz : Puzzle C) (p : Picross C), Picross.new? puz = some p → Reachable p
  | step : ∀ (p p' : Picross C) (m : Mutation C) (row col : Nat),
      Reachable p → row < p.board.height → col < p.board.width →
      Picross.mutate? p m row col = some p' → Reachable p'

end Controller

section TotalTwins

variable {C : Type} [DecidableEq C]

/-- Total in-range form of `Board::row`. Agrees with `Board.row?` whenever
the latter succeeds. -/
def Board.rowT (b : Board C) (index : Nat) : List (Cell C) :=
  (b.items.drop (index * b.width)).take b.width

/-- Total in-range form of `Puzzle::row_is_solved`. -/
def rowSolvedT (puz : Puzzle C) (b : Board C) (index : Nat) : Bool :=
  lineSolved (puz.row_constraints.getD index []) (b.rowT index)

/-- Total in-range form of `Puzzle::column_is_solved`. -/
def colSolvedT (puz : Puzzle C) (b : Board C) (index : Nat) : Bool :=
  lineSolved (puz.column_constraints.getD index []) (b.column index)

/-- A generic annotation pass: for each index `i` of `l`, overwrite the cell
at flat position `f i` with `newCell` when the current cell satisfies
`condCell` and the current board satisfies `condCtx`. All four annotation
loops are instances. -/
def annotGo (f : Nat → Nat) (condCell : Option (Cell C) → Bool)
    (condCtx : Board C → Nat → Bool) (newCell : Cell C)
    (l : List Nat) (b : Board C) : Board C :=
  l.foldl
    (fun b i =>
      if condCell (b.items.get? (f i)) && condCtx b i then
        { b with items := b.items.set (f i) newCell }
      else b)
    b

/-- Total in-range form of the auto-cross loop on a row. -/
def crossRowT (b : Board C) (row : Nat) : Board C :=
  annotGo (fun c => row * b.width + c) (fun o => o = some Cell.Empty)
    (fun _ _ => true) Cell.CrossedOut (List.range b.width) b

/-- Total in-range form of the revert loop on a row. -/
def revertRowT (puz : Puzzle C) (b : Board C) (row : Nat) : Board C :=
  annotGo (fun c => row * b.width + c) (fun o => o = some Cell.CrossedOut)
    (fun b c => ! colSolvedT puz b c) Cell.Empty (List.range b.width) b

/-- Total in-range form of the auto-cross loop on a column. -/
def crossColT (b : Board C) (col : Nat) : Board C :=
  annotGo (fun r => r * b.width + col) (fun o => o = some Cell.Empty)
    (fun _ _ => true) Cell.CrossedOut (List.range b.height) b

/-- Total in-range form of the revert loop on a column. -/
def revertColT (puz : Puzzle C) (b : Board C) (col : Nat) : Board C :=
  annotGo (fun r => r * b.width + col) (fun o => o = some Cell.CrossedOut)
    (fun b r => ! rowSolvedT puz b r) Cell.Empty (List.range b.height) b

/-- The row annotation pass for a given solved bit. -/
def rowPassT (puz : Puzzle C) (b : Board C) (row : Nat) (solved : Bool) : Board C :=
  if solved then crossRowT b row else revertRowT puz b row

/-- The column annotation pass for a given solved bit. -/
def colPassT (puz : Puzzle C) (b : Board C) (col : Nat) (solved : Bool) : Board C :=
  if solved then crossColT b col else revertColT puz b col

/-- Total in-range form of `Picross::check_row`. -/
def Picross.check_rowT (p : Picross C) (row : Nat) : Picross C :=
  let completed := rowSolvedT p.puzzle p.board row
  let p1 : Picross C := { p with row_status := p.row_status.set row completed }
  if p1.auto_cross then { p1 with board := rowPassT p1.puzzle p1.board row completed }
  else p1

/-- Total in-range form of `Picross::check_column`. -/
def Picross.check_columnT (p : Picross C) (column : Nat) : Picross C :=
  let completed := colSolvedT p.puzzle p.board column
  let p1 : Picross C := { p with column_status := p.column_status.set column completed }
  if p1.auto_cross then { p1 with board := colPassT p1.puzzle p1.board column completed }
  else p1

/-- Total in-range form of `Picross::check`. -/
def Picross.checkT (p : Picross C) (row column : Nat) : Picross C :=
  (p.check_rowT row).check_columnT column

/-- Total in-range form of a mutation followed by its re-check. -/
def Picross.mutateT (p : Picross C) (m : Mutation C) (row column : Nat) : Picross C :=
  let c := match m with
    | Mutation.place v => Cell.Filled v
    | Mutation.crossOut => Cell.CrossedOut
    | Mutation.clear => Cell.Empty
  Picross.checkT { p with board := p.board.setT row column c } row column

/-- Modelled from the spec (§4.4 and the §9 open question): the reference
re-check that first recomputes both the row's and the column's solved bits
on the mutated board and only then applies both annotation passes. -/
def Picross.checkBothFirstT (p : Picross C) (row col : Nat) : Picross C :=
  let rb := rowSolvedT p.puzzle p.board row
  let cb := colSolvedT p.puzzle p.board col
  let b' :=
    if p.auto_cross then colPassT p.puzzle (rowPassT p.puzzle p.board row rb) col cb
    else p.board
  { p with
    row_status := p.row_status.set row rb
    column_status := p.column_status.set col cb
    board := b' }

end TotalTwins

section BoardLemmas

variable {C : Type} [DecidableEq C]

theorem List.set_eq_of_get? {α : Type} {l : List α} {i : Nat} {a : α}
    (h : l.get? i = some a) : l.set i a = l := by
  apply List.ext_get?
  intro n
  by_cases hn : i = n
  · subst hn
    have hi : i < l.length := by
      rcases List.get?_eq_some.mp h with ⟨hlt, _⟩
      exact hlt
    rw [List.get?_set_eq_of_lt a hi, h]
  · exact List.get?_set_ne a l hn

theorem flatIdx_lt {row col w h : Nat} (hr : row < h) (hc : col < w) :
    row * w + col < w * h := by
  have h1 : row * w + col < (row + 1) * w := by
    rw [Nat.succ_mul]
    omega
  have h2 : (row + 1) * w ≤ h * w := Nat.mul_le_mul_right w hr
  have h3 : row * w + col < h * w := lt_of_lt_of_le h1 h2
  rw [Nat.mul_comm h w] at h3
  exact h3

theorem flatIdx_inj {r c r' c' w : Nat} (hc : c < w) (hc' : c' < w)
    (h : r * w + c = r' * w + c') : r = r' ∧ c = c' := by
  have hw : 0 < w := Nat.pos_of_ne_zero (by omega)
  have h1 : (r * w + c) % w = c := by
    rw [Nat.mul_comm r w, Nat.mul_add_mod, Nat.mod_eq_of_lt hc]
  have h2 : (r' * w + c') % w = c' := by
    rw [Nat.mul_comm r' w, Nat.mul_add_mod, Nat.mod_eq_of_lt hc']
  have hcc : c = c' := by rw [← h1, ← h2, h]
  constructor
  · have : r * w = r' * w := by omega
    exact Nat.eq_of_mul_eq_mul_right hw this
  · exact hcc

theorem Board.setT_width (b : Board C) (row col : Nat) (x : Cell C) :
    (b.setT row col x).width = b.width := rfl

theorem Board.setT_height (b : Board C) (row col : Nat) (x : Cell C) :
    (b.setT row col x).height = b.height := rfl

theorem Board.setT_items_length (b : Board C) (row col : Nat) (x : Cell C) :
    (b.setT row col x).items.length = b.items.length := by
  simp [Board.setT, List.length_set]

theorem Board.set?_eq_setT (b : Board C) (row col : Nat) (x : Cell C)
    (h : row * b.width + col < b.items.length) :
    b.set? row col x = some (b.setT row col x) := by
  simp [Board.set?, Board.setT, h]

/-- Two boards with the same shape whose cells agree up to the
`Empty`/`CrossedOut` distinction. All solvedness computations coincide on
such boards. -/
def BE (b b' : Board C) : Prop :=
  b.width = b'.width ∧ b.height = b'.height ∧
    b.items.map Cell.toOpt = b'.items.map Cell.toOpt

theorem BE.refl (b : Board C) : BE b b := ⟨rfl, rfl, rfl⟩

theorem BE.symm' {b b' : Board C} (h : BE b b') : BE b' b :=
  ⟨h.1.symm, h.2.1.symm, h.2.2.symm⟩

theorem BE.trans' {b₁ b₂ b₃ : Board C} (h : BE b₁ b₂) (h' : BE b₂ b₃) : BE b₁ b₃ :=
  ⟨h.1.trans h'.1, h.2.1.trans h'.2.1, h.2.2.trans h'.2.2⟩

theorem BE.items_length {b b' : Board C} (h : BE b b') :
    b.items.length = b'.items.length := by
  have := congrArg List.length h.2.2
  simpa using this

theorem lineSolved_congr (k : Constraint C) {l1 l2 : List (Cell C)}
    (h : l1.map Cell.toOpt = l2.map Cell.toOpt) :
    lineSolved k l1 = lineSolved k l2 := by
  unfold lineSolved
  rw [observedRuns_eq_specRuns, observedRuns_eq_specRuns,
    specRuns_eq_filterMap, specRuns_eq_filterMap, h]

theorem rowT_toOpt {b b' : Board C} (h : BE b b') (i : Nat) :
    (b.rowT i).map Cell.toOpt = (b'.rowT i).map Cell.toOpt := by
  unfold Board.rowT
  rw [List.map_take, List.map_take, List.map_drop, List.map_drop, h.2.2, h.1]

theorem rowSolvedT_congr {b b' : Board C} (h : BE b b') (puz : Puzzle C) (i : Nat) :
    rowSolvedT puz b i = rowSolvedT puz b' i := by
  unfold rowSolvedT
  exact lineSolved_congr _ (rowT_toOpt h i)

theorem Board.columnGo_succ (b : Board C) (fuel i : Nat) :
    b.columnGo (fuel + 1) i =
      match b.items.get? i with
      | none => []
      | some c => c :: b.columnGo fuel (i + b.width) := rfl

theorem columnGo_toOpt {b b' : Board C} (h : BE b b') :
    ∀ (fuel i : Nat), (b.columnGo fuel i).map Cell.toOpt =
      (b'.columnGo fuel i).map Cell.toOpt := by
  intro fuel
  induction fuel with
  | zero => intro i; simp [Board.columnGo]
  | succ fuel ih =>
    intro i
    have hget : (b.items.get? i).map Cell.toOpt = (b'.items.get? i).map Cell.toOpt := by
      rw [← List.get?_map, ← List.get?_map, h.2.2]
    cases hb : b.items.get? i with
    | none =>
      have hb' : b'.items.get? i = none := by
        rw [hb] at hget
        cases hb' : b'.items.get? i with
        | none => rfl
        | some c => rw [hb'] at hget; simp at hget
      simp only [Board.columnGo_succ, hb, hb']
    | some c =>
      cases hb' : b'.items.get? i with
      | none => rw [hb, hb'] at hget; simp at hget
      | some c' =>
        rw [hb, hb'] at hget
        simp only [Option.map_some'] at hget
        have hcc : Cell.toOpt c = Cell.toOpt c' := by
          injection hget
        simp only [Board.columnGo_succ, hb, hb', List.map_cons, hcc, h.1, ih]

theorem column_toOpt {b b' : Board C} (h : BE b b') (j : Nat) :
    (b.column j).map Cell.toOpt = (b'.column j).map Cell.toOpt := by
  unfold Board.column
  rw [BE.items_length h]
  exact columnGo_toOpt h _ j

theorem colSolvedT_congr {b b' : Board C} (h : BE b b') (puz : Puzzle C) (j : Nat) :
    colSolvedT puz b j = colSolvedT puz b' j := by
  unfold colSolvedT
  exact lineSolved_congr _ (column_toOpt h j)

theorem Board.get?_setT_eq (b : Board C) {row col : Nat} (x : Cell C)
    (h : row * b.width + col < b.items.length) :
    (b.setT row col x).get? row col = some x := by
  simp only [Board.get?, Board.setT]
  exact List.get?_set_eq_of_lt x h

theorem Board.items_get?_setT_ne (b : Board C) {idx : Nat} (row col : Nat) (x : Cell C)
    (h : row * b.width + col ≠ idx) :
    (b.setT row col x).items.get? idx = b.items.get? idx := by
  simp only [Board.setT]
  exact List.get?_set_ne x _ h

theorem Board.get?_setT_ne (b : Board C) {row col r' c' : Nat} (x : Cell C)
    (hc : col < b.width) (hc' : c' < b.width)
    (hne : ¬(r' = row ∧ c' = col)) :
    (b.setT row col x).get? r' c' = b.get? r' c' := by
  simp only [Board.get?, Board.setT]
  apply List.get?_set_ne
  intro h
  exact hne ⟨(flatIdx_inj hc hc' h).1.symm, (flatIdx_inj hc hc' h).2.symm⟩

theorem rowT_get? (b : Board C) (i : Nat) {j : Nat} (hj : j < b.width) :
    (b.rowT i).get? j = b.items.get? (i * b.width + j) := by
  unfold Board.rowT
  rw [List.get?_take hj, List.get?_drop]

end BoardLemmas

section AnnotLemmas

variable {C : Type} [DecidableEq C]

theorem annotGo_nil (f : Nat → Nat) (condCell : Option (Cell C) → Bool)
    (condCtx : Board C → Nat → Bool) (newCell : Cell C) (b : Board C) :
    annotGo f condCell condCtx newCell [] b = b := rfl

theorem annotGo_cons (f : Nat → Nat) (condCell : Option (Cell C) → Bool)
    (condCtx : Board C → Nat → Bool) (newCell : Cell C) (i : Nat) (l : List Nat)
    (b : Board C) :
    annotGo f condCell condCtx newCell (i :: l) b =
      annotGo f condCell condCtx newCell l
        (if condCell (b.items.get? (f i)) && condCtx b i then
          { b with items := b.items.set (f i) newCell }
        else b) := rfl

/-- Full characterisation of an annotation pass: it is `BE`-preserving,
leaves every flat position outside `f '' l` unchanged, and rewrites the
position `f i` according to the conditions evaluated on the initial board. -/
theorem annotGo_spec (f : Nat → Nat) (condCell : Option (Cell C) → Bool)
    (condCtx : Board C → Nat → Bool) (newCell : Cell C)
    (hCell : ∀ o, condCell o = true → ∃ cl, o = some cl ∧ Cell.toOpt cl = Cell.toOpt newCell)
    (hCtx : ∀ (b b' : Board C) (i : Nat), BE b b' → condCtx b i = condCtx b' i) :
    ∀ (l : List Nat) (b₀ : Board C), l.Nodup →
      (∀ i ∈ l, ∀ j ∈ l, i ≠ j → f i ≠ f j) →
      (∀ i ∈ l, f i < b₀.items.length) →
      BE (annotGo f condCell condCtx newCell l b₀) b₀ ∧
      (∀ idx, (∀ i ∈ l, idx ≠ f i) →
        (annotGo f condCell condCtx newCell l b₀).items.get? idx = b₀.items.get? idx) ∧
      (∀ i ∈ l, (annotGo f condCell condCtx newCell l b₀).items.get? (f i) =
        if condCell (b₀.items.get? (f i)) && condCtx b₀ i then some newCell
        else b₀.items.get? (f i)) := by
  intro l
  induction l with
  | nil =>
    intro b₀ _ _ _
    refine ⟨BE.refl b₀, ?_, ?_⟩
    · intro idx _; rfl
    · intro i hi; exact absurd hi (List.not_mem_nil i)
  | cons i cs ih =>
    intro b₀ hnd hinj hbound
    set b₁ := (if condCell (b₀.items.get? (f i)) && condCtx b₀ i then
        { b₀ with items := b₀.items.set (f i) newCell }
      else b₀) with hb₁
    have hfi_lt : f i < b₀.items.length := hbound i (List.mem_cons_self i cs)
    -- step facts
    have hstep_be : BE b₁ b₀ := by
      rw [hb₁]
      by_cases hcond : condCell (b₀.items.get? (f i)) && condCtx b₀ i
      · rw [if_pos hcond]
        have hcc : condCell (b₀.items.get? (f i)) = true := by
          simp only [Bool.and_eq_true] at hcond
          exact hcond.1
        obtain ⟨cl, hcl, hto⟩ := hCell _ hcc
        refine ⟨rfl, rfl, ?_⟩
        rw [List.map_set]
        apply List.set_eq_of_get?
        rw [List.get?_map, hcl]
        simp only [Option.map_some']
        rw [hto]
      · rw [if_neg hcond]
        exact BE.refl b₀
    have hstep_ne : ∀ idx, idx ≠ f i → b₁.items.get? idx = b₀.items.get? idx := by
      intro idx hne
      rw [hb₁]
      by_cases hcond : condCell (b₀.items.get? (f i)) && condCtx b₀ i
      · rw [if_pos hcond]
        exact List.get?_set_ne newCell _ (fun h => hne h.symm)
      · rw [if_neg hcond]
    have hstep_eq : b₁.items.get? (f i) =
        if condCell (b₀.items.get? (f i)) && condCtx b₀ i then some newCell
        else b₀.items.get? (f i) := by
      rw [hb₁]
      by_cases hcond : condCell (b₀.items.get? (f i)) && condCtx b₀ i
      · rw [if_pos hcond, if_pos hcond]
        exact List.get?_set_eq_of_lt newCell hfi_lt
      · rw [if_neg hcond, if_neg hcond]
    have hlen₁ : b₁.items.length = b₀.items.length := (BE.items_length hstep_be)
    -- apply the induction hypothesis to the tail
    have hnd' : cs.Nodup := (List.nodup_cons.mp hnd).2
    have hmem : i ∉ cs := (List.nodup_cons.mp hnd).1
    have hinj' : ∀ a ∈ cs, ∀ b ∈ cs, a ≠ b → f a ≠ f b := fun a ha b hb =>
      hinj a (List.mem_cons_of_mem i ha) b (List.mem_cons_of_mem i hb)
    have hbound' : ∀ j ∈ cs, f j < b₁.items.length := by
      intro j hj
      rw [hlen₁]
      exact hbound j (List.mem_cons_of_mem i hj)
    obtain ⟨ihBE, ihNe, ihEq⟩ := ih b₁ hnd' hinj' hbound'
    rw [annotGo_cons, ← hb₁]
    refine ⟨BE.trans' ihBE hstep_be, ?_, ?_⟩
    · intro idx hidx
      rw [ihNe idx (fun j hj => hidx j (List.mem_cons_of_mem i hj))]
      exact hstep_ne idx (hidx i (List.mem_cons_self i cs))
    · intro j hj
      rcases List.mem_cons.mp hj with hji | hjcs
      · subst hji
        have hne : ∀ a ∈ cs, f j ≠ f a := by
          intro a ha
          exact hinj j (List.mem_cons_self j cs) a (List.mem_cons_of_mem j ha)
            (fun hja => hmem (hja ▸ ha))
        rw [ihNe (f j) hne, hstep_eq]
      · have hfj_ne : f j ≠ f i := by
          apply hinj j (List.mem_cons_of_mem i hjcs) i (List.mem_cons_self i cs)
          intro hji
          exact hmem (hji ▸ hjcs)
        rw [ihEq j hjcs, hstep_ne (f j) hfj_ne, hCtx b₁ b₀ j hstep_be]

theorem crossRowT_spec (b : Board C) (row : Nat) (hrow : row < b.height)
    (hlen : b.items.length = b.width * b.height) :
    BE (crossRowT b row) b ∧
    (∀ idx, (∀ c, c < b.width → idx ≠ row * b.width + c) →
      (crossRowT b row).items.get? idx = b.items.get? idx) ∧
    (∀ c, c < b.width →
      (crossRowT b row).items.get? (row * b.width + c) =
        if b.items.get? (row * b.width + c) = some Cell.Empty then some Cell.CrossedOut
        else b.items.get? (row * b.width + c)) := by
  unfold crossRowT
  have h := annotGo_spec (fun c => row * b.width + c)
    (fun o => o = some Cell.Empty) (fun _ _ => true) Cell.CrossedOut
    (by
      intro o ho
      refine ⟨Cell.Empty, of_decide_eq_true ho, rfl⟩)
    (by intro _ _ _ _; rfl)
    (List.range b.width) b (List.nodup_range b.width)
    (by
      intro i _ j _ hij
      show row * b.width + i ≠ row * b.width + j
      omega)
    (by
      intro c hc
      rw [hlen]
      exact flatIdx_lt hrow (List.mem_range.mp hc))
  obtain ⟨hBE, hNe, hEq⟩ := h
  refine ⟨hBE, ?_, ?_⟩
  · intro idx hidx
    exact hNe idx (fun c hc => hidx c (List.mem_range.mp hc))
  · intro c hc
    have := hEq c (List.mem_range.mpr hc)
    simp only [Bool.and_true, decide_eq_true_eq] at this
    exact this

theorem revertRowT_spec (puz : Puzzle C) (b : Board C) (row : Nat) (hrow : row < b.height)
    (hlen : b.items.length = b.width * b.height) :
    BE (revertRowT puz b row) b ∧
    (∀ idx, (∀ c, c < b.width → idx ≠ row * b.width + c) →
      (revertRowT puz b row).items.get? idx = b.items.get? idx) ∧
    (∀ c, c < b.width →
      (revertRowT puz b row).items.get? (row * b.width + c) =
        if b.items.get? (row * b.width + c) = some Cell.CrossedOut ∧ colSolvedT puz b c = false
        then some Cell.Empty
        else b.items.get? (row * b.width + c)) := by
  unfold revertRowT
  have h := annotGo_spec (fun c => row * b.width + c)
    (fun o => o = some Cell.CrossedOut) (fun b c => ! colSolvedT puz b c) Cell.Empty
    (by
      intro o ho
      refine ⟨Cell.CrossedOut, of_decide_eq_true ho, rfl⟩)
    (by
      intro b b' i hbe
      show (! colSolvedT puz b i) = (! colSolvedT puz b' i)
      rw [colSolvedT_congr hbe puz i])
    (List.range b.width) b (List.nodup_range b.width)
    (by
      intro i _ j _ hij
      show row * b.width + i ≠ row * b.width + j
      omega)
    (by
      intro c hc
      rw [hlen]
      exact flatIdx_lt hrow (List.mem_range.mp hc))
  obtain ⟨hBE, hNe, hEq⟩ := h
  refine ⟨hBE, ?_, ?_⟩
  · intro idx hidx
    exact hNe idx (fun c hc => hidx c (List.mem_range.mp hc))
  · intro c hc
    have := hEq c (List.mem_range.mpr hc)
    simp only [Bool.and_eq_true, decide_eq_true_eq, Bool.not_eq_true'] at this
    exact this

theorem crossColT_spec (b : Board C) (col : Nat) (hcol : col < b.width)
    (hlen : b.items.length = b.width * b.height) :
    BE (crossColT b col) b ∧
    (∀ idx, (∀ r, r < b.height → idx ≠ r * b.width + col) →
      (crossColT b col).items.get? idx = b.items.get? idx) ∧
    (∀ r, r < b.height →
      (crossColT b col).items.get? (r * b.width + col) =
        if b.items.get? (r * b.width + col) = some Cell.Empty then some Cell.CrossedOut
        else b.items.get? (r * b.width + col)) := by
  unfold crossColT
  have h := annotGo_spec (fun r => r * b.width + col)
    (fun o => o = some Cell.Empty) (fun _ _ => true) Cell.CrossedOut
    (by
      intro o ho
      refine ⟨Cell.Empty, of_decide_eq_true ho, rfl⟩)
    (by intro _ _ _ _; rfl)
    (List.range b.height) b (List.nodup_range b.height)
    (by
      intro i _ j _ hij
      show i * b.width + col ≠ j * b.width + col
      intro heq
      exact hij (flatIdx_inj hcol hcol heq).1)
    (by
      intro r hr
      rw [hlen]
      exact flatIdx_lt (List.mem_range.mp hr) hcol)
  obtain ⟨hBE, hNe, hEq⟩ := h
  refine ⟨hBE, ?_, ?_⟩
  · intro idx hidx
    exact hNe idx (fun r hr => hidx r (List.mem_range.mp hr))
  · intro r hr
    have := hEq r (List.mem_range.mpr hr)
    simp only [Bool.and_true, decide_eq_true_eq] at this
    exact this

theorem revertColT_spec (puz : Puzzle C) (b : Board C) (col : Nat) (hcol : col < b.width)
    (hlen : b.items.length = b.width * b.height) :
    BE (revertColT puz b col) b ∧
    (∀ idx, (∀ r, r < b.height → idx ≠ r * b.width + col) →
      (revertColT puz b col).items.get? idx = b.items.get? idx) ∧
    (∀ r, r < b.height →
      (revertColT puz b col).items.get? (r * b.width + col) =
        if b.items.get? (r * b.width + col) = some Cell.CrossedOut ∧ rowSolvedT puz b r = false
        then some Cell.Empty
        else b.items.get? (r * b.width + col)) := by
  unfold revertColT
  have h := annotGo_spec (fun r => r * b.width + col)
    (fun o => o = some Cell.CrossedOut) (fun b r => ! rowSolvedT puz b r) Cell.Empty
    (by
      intro o ho
      refine ⟨Cell.CrossedOut, of_decide_eq_true ho, rfl⟩)
    (by
      intro b b' i hbe
      show (! rowSolvedT puz b i) = (! rowSolvedT puz b' i)
      rw [rowSolvedT_congr hbe puz i])
    (List.range b.height) b (List.nodup_range b.height)
    (by
      intro i _ j _ hij
      show i * b.width + col ≠ j * b.width + col
      intro heq
      exact hij (flatIdx_inj hcol hcol heq).1)
    (by
      intro r hr
      rw [hlen]
      exact flatIdx_lt (List.mem_range.mp hr) hcol)
  obtain ⟨hBE, hNe, hEq⟩ := h
  refine ⟨hBE, ?_, ?_⟩
  · intro idx hidx
    exact hNe idx (fun r hr => hidx r (List.mem_range.mp hr))
  · intro r hr
    have := hEq r (List.mem_range.mpr hr)
    simp only [Bool.and_eq_true, decide_eq_true_eq, Bool.not_eq_true'] at this
    exact this

/-- The row annotation pass, characterised for either value of the solved bit. -/
theorem rowPassT_spec (puz : Puzzle C) (b : Board C) (row : Nat) (solved : Bool)
    (hrow : row < b.height) (hlen : b.items.length = b.width * b.height) :
    BE (rowPassT puz b row solved) b ∧
    (∀ idx, (∀ c, c < b.width → idx ≠ row * b.width + c) →
      (rowPassT puz b row solved).items.get? idx = b.items.get? idx) ∧
    (∀ c, c < b.width →
      (rowPassT puz b row solved).items.get? (row * b.width + c) =
        if solved = true then
          (if b.items.get? (row * b.width + c) = some Cell.Empty then some Cell.CrossedOut
          else b.items.get? (row * b.width + c))
        else
          (if b.items.get? (row * b.width + c) = some Cell.CrossedOut ∧
              colSolvedT puz b c = false then some Cell.Empty
          else b.items.get? (row * b.width + c))) := by
  cases solved with
  | true =>
    obtain ⟨hBE, hNe, hEq⟩ := crossRowT_spec b row hrow hlen
    have hpass : rowPassT puz b row true = crossRowT b row := by simp [rowPassT]
    rw [hpass]
    refine ⟨hBE, hNe, ?_⟩
    intro c hc
    rw [hEq c hc]
    simp
  | false =>
    obtain ⟨hBE, hNe, hEq⟩ := revertRowT_spec puz b row hrow hlen
    have hpass : rowPassT puz b row false = revertRowT puz b row := by simp [rowPassT]
    rw [hpass]
    refine ⟨hBE, hNe, ?_⟩
    intro c hc
    rw [hEq c hc]
    simp

/-- The column annotation pass, characterised for either value of the solved bit. -/
theorem colPassT_spec (puz : Puzzle C) (b : Board C) (col : Nat) (solved : Bool)
    (hcol : col < b.width) (hlen : b.items.length = b.width * b.height) :
    BE (colPassT puz b col solved) b ∧
    (∀ idx, (∀ r, r < b.height → idx ≠ r * b.width + col) →
      (colPassT puz b col solved).items.get? idx = b.items.get? idx) ∧
    (∀ r, r < b.height →
      (colPassT puz b col solved).items.get? (r * b.width + col) =
        if solved = true then
          (if b.items.get? (r * b.width + col) = some Cell.Empty then some Cell.CrossedOut
          else b.items.get? (r * b.width + col))
        else
          (if b.items.get? (r * b.width + col) = some Cell.CrossedOut ∧
              rowSolvedT puz b r = false then some Cell.Empty
          else b.items.get? (r * b.width + col))) := by
  cases solved with
  | true =>
    obtain ⟨hBE, hNe, hEq⟩ := crossColT_spec b col hcol hlen
    have hpass : colPassT puz b col true = crossColT b col := by simp [colPassT]
    rw [hpass]
    refine ⟨hBE, hNe, ?_⟩
    intro r hr
    rw [hEq r hr]
    simp
  | false =>
    obtain ⟨hBE, hNe, hEq⟩ := revertColT_spec puz b col hcol hlen
    have hpass : colPassT puz b col false = revertColT puz b col := by simp [colPassT]
    rw [hpass]
    refine ⟨hBE, hNe, ?_⟩
    intro r hr
    rw [hEq r hr]
    simp

end AnnotLemmas

section Bridging

variable {C : Type} [DecidableEq C]

/-- Shape well-formedness of a controller state: the flat storage matches
the dimensions, the constraint-group lengths match the loop bounds the
controller uses, and the status vectors match the dimensions. -/
def Good (p : Picross C) : Prop :=
  p.board.items.length = p.board.width * p.board.height ∧
  p.puzzle.row_constraints.length = p.board.height ∧
  p.puzzle.column_constraints.length = p.board.width ∧
  p.row_status.length = p.board.height ∧
  p.column_status.length = p.board.width

theorem rowSliceBound {i w h : Nat} (hi : i < h) : i * w + w ≤ w * h := by
  have h1 : i * w + w = (i + 1) * w := by rw [Nat.succ_mul]
  have h2 : (i + 1) * w ≤ h * w := Nat.mul_le_mul_right w hi
  rw [h1, Nat.mul_comm h w] at *
  omega

theorem getD_of_get? {α : Type} {l : List α} {i : Nat} (hi : i < l.length) (d : α) :
    l.get? i = some (l.getD i d) := by
  cases hk : l.get? i with
  | none => exact absurd (List.get?_eq_none.mp hk) (by omega)
  | some k =>
    rw [List.getD_eq_get?, hk]
    rfl

theorem row_is_solved?_eq (puz : Puzzle C) (b : Board C) (i : Nat)
    (hi : i < puz.row_constraints.length) (hle : i * b.width + b.width ≤ b.items.length) :
    puz.row_is_solved? b i = some (rowSolvedT puz b i) := by
  unfold Puzzle.row_is_solved? rowSolvedT
  rw [getD_of_get? hi ([] : Constraint C)]
  unfold Board.row? Board.rowT
  rw [if_pos hle]
  rfl

theorem column_is_solved?_eq (puz : Puzzle C) (b : Board C) (j : Nat)
    (hj : j < puz.column_constraints.length) :
    puz.column_is_solved? b j = some (colSolvedT puz b j) := by
  unfold Puzzle.column_is_solved? colSolvedT
  rw [getD_of_get? hj ([] : Constraint C)]
  rfl

/-- A fold in the `Option` monad agrees with the pure fold when every step
succeeds and preserves the invariant. -/
theorem foldlM_eq_foldl {σ : Type} (P : σ → Prop) (stepM : σ → Nat → Option σ)
    (stepT : σ → Nat → σ) :
    ∀ (l : List Nat) (s : σ), P s →
      (∀ s i, P s → i ∈ l → stepM s i = some (stepT s i) ∧ P (stepT s i)) →
      l.foldlM stepM s = some (l.foldl stepT s) ∧ P (l.foldl stepT s) := by
  intro l
  induction l with
  | nil =>
    intro s hs _
    exact ⟨rfl, hs⟩
  | cons i l ih =>
    intro s hs hstep
    obtain ⟨h1, h2⟩ := hstep s i hs (List.mem_cons_self i l)
    rw [List.foldlM_cons, h1]
    simp only [Option.some_bind, List.foldl_cons]
    exact ih (stepT s i) h2 (fun s j hsj hj => hstep s j hsj (List.mem_cons_of_mem i hj))

theorem get?_isSome_of_lt {α : Type} {l : List α} {i : Nat} (hi : i < l.length) :
    ∃ x, l.get? i = some x := by
  cases hk : l.get? i with
  | none => exact absurd (List.get?_eq_none.mp hk) (by omega)
  | some x => exact ⟨x, rfl⟩

theorem crossRowM_eq (b : Board C) (row : Nat) (hrow : row < b.height)
    (hlen : b.items.length = b.width * b.height) :
    crossRowM b row = some (crossRowT b row) := by
  have hstep : ∀ (b' : Board C) (c : Nat),
      (b'.width = b.width ∧ b'.height = b.height ∧ b'.items.length = b.items.length) →
      c ∈ List.range b.width →
      (do
        let cell ← b'.get? row c
        if cell = Cell.Empty then b'.set? row c Cell.CrossedOut else pure b') =
        some (if (decide (b'.items.get? (row * b.width + c) = some Cell.Empty) && true) = true
          then { b' with items := b'.items.set (row * b.width + c) Cell.CrossedOut }
          else b') ∧
      ((if (decide (b'.items.get? (row * b.width + c) = some Cell.Empty) && true) = true
          then { b' with items := b'.items.set (row * b.width + c) Cell.CrossedOut }
          else b').width = b.width ∧
        (if (decide (b'.items.get? (row * b.width + c) = some Cell.Empty) && true) = true
          then { b' with items := b'.items.set (row * b.width + c) Cell.CrossedOut }
          else b').height = b.height ∧
        (if (decide (b'.items.get? (row * b.width + c) = some Cell.Empty) && true) = true
          then { b' with items := b'.items.set (row * b.width + c) Cell.CrossedOut }
          else b').items.length = b.items.length) := by
    intro b' c hP hc
    obtain ⟨hw, hh, hl⟩ := hP
    have hc' : c < b.width := List.mem_range.mp hc
    have hidx : row * b.width + c < b'.items.length := by
      rw [hl, hlen]
      exact flatIdx_lt hrow hc'
    obtain ⟨cell, hcell⟩ := get?_isSome_of_lt hidx
    have hget : b'.get? row c = some cell := by
      rw [Board.get?, hw]
      exact hcell
    constructor
    · rw [hget]
      simp only [Option.bind_eq_bind, Option.some_bind]
      by_cases hE : cell = Cell.Empty
      · subst hE
        rw [if_pos rfl, Board.set?, if_pos (by rw [hw]; exact hidx), hcell,
          if_pos (by simp), hw]
      · rw [if_neg hE, hcell, if_neg (by simp [hE])]
        rfl
    · by_cases hE : (decide (b'.items.get? (row * b.width + c) = some Cell.Empty) && true) = true
      · rw [if_pos hE]
        exact ⟨hw, hh, by simp [List.length_set, hl]⟩
      · rw [if_neg hE]
        exact ⟨hw, hh, hl⟩
  have h := foldlM_eq_foldl
    (fun b' : Board C => b'.width = b.width ∧ b'.height = b.height ∧
      b'.items.length = b.items.length)
    (fun b' c => do
      let cell ← b'.get? row c
      if cell = Cell.Empty then b'.set? row c Cell.CrossedOut else pure b')
    (fun b' c =>
      if (decide (b'.items.get? (row * b.width + c) = some Cell.Empty) && true) = true
      then { b' with items := b'.items.set (row * b.width + c) Cell.CrossedOut }
      else b')
    (List.range b.width) b ⟨rfl, rfl, rfl⟩ hstep
  unfold crossRowM crossRowT annotGo
  exact h.1

theorem revertRowM_eq (puz : Puzzle C) (b : Board C) (row : Nat) (hrow : row < b.height)
    (hlen : b.items.length = b.width * b.height)
    (hcc : puz.column_constraints.length = b.width) :
    revertRowM puz b row = some (revertRowT puz b row) := by
  have hstep : ∀ (b' : Board C) (c : Nat),
      (b'.width = b.width ∧ b'.height = b.height ∧ b'.items.length = b.items.length) →
      c ∈ List.range b.width →
      (do
        let cell ← b'.get? row c
        if cell = Cell.CrossedOut then do
          let solved ← puz.column_is_solved? b' c
          if solved then pure b' else b'.set? row c Cell.Empty
        else pure b') =
        some (if (decide (b'.items.get? (row * b.width + c) = some Cell.CrossedOut) &&
              ! colSolvedT puz b' c) = true
          then { b' with items := b'.items.set (row * b.width + c) Cell.Empty }
          else b') ∧
      ((if (decide (b'.items.get? (row * b.width + c) = some Cell.CrossedOut) &&
              ! colSolvedT puz b' c) = true
          then { b' with items := b'.items.set (row * b.width + c) Cell.Empty }
          else b').width = b.width ∧
        (if (decide (b'.items.get? (row * b.width + c) = some Cell.CrossedOut) &&
              ! colSolvedT puz b' c) = true
          then { b' with items := b'.items.set (row * b.width + c) Cell.Empty }
          else b').height = b.height ∧
        (if (decide (b'.items.get? (row * b.width + c) = some Cell.CrossedOut) &&
              ! colSolvedT puz b' c) = true
          then { b' with items := b'.items.set (row * b.width + c) Cell.Empty }
          else b').items.length = b.items.length) := by
    intro b' c hP hc
    obtain ⟨hw, hh, hl⟩ := hP
    have hc' : c < b.width := List.mem_range.mp hc
    have hidx : row * b.width + c < b'.items.length := by
      rw [hl, hlen]
      exact flatIdx_lt hrow hc'
    obtain ⟨cell, hcell⟩ := get?_isSome_of_lt hidx
    have hget : b'.get? row c = some cell := by
      rw [Board.get?, hw]
      exact hcell
    have hsolved : puz.column_is_solved? b' c = some (colSolvedT puz b' c) :=
      column_is_solved?_eq puz b' c (by rw [hcc]; exact hc')
    constructor
    · rw [hget]
      simp only [Option.bind_eq_bind, Option.some_bind]
      by_cases hX : cell = Cell.CrossedOut
      · subst hX
        rw [if_pos rfl, hsolved]
        simp only [Option.bind_eq_bind, Option.some_bind]
        rw [hcell]
        cases hs : colSolvedT puz b' c with
        | true =>
          rw [if_pos rfl, if_neg (by simp)]
          rfl
        | false =>
          rw [if_neg (by simp), Board.set?, if_pos (by rw [hw]; exact hidx),
            if_pos (by simp), hw]
      · rw [if_neg hX, hcell, if_neg (by simp [hX])]
        rfl
    · by_cases hE : (decide (b'.items.get? (row * b.width + c) = some Cell.CrossedOut) &&
          ! colSolvedT puz b' c) = true
      · rw [if_pos hE]
        exact ⟨hw, hh, by simp [List.length_set, hl]⟩
      · rw [if_neg hE]
        exact ⟨hw, hh, hl⟩
  have h := foldlM_eq_foldl
    (fun b' : Board C => b'.width = b.width ∧ b'.height = b.height ∧
      b'.items.length = b.items.length)
    (fun b' c => do
      let cell ← b'.get? row c
      if cell = Cell.CrossedOut then do
        let solved ← puz.column_is_solved? b' c
        if solved then pure b' else b'.set? row c Cell.Empty
      else pure b')
    (fun b' c =>
      if (decide (b'.items.get? (row * b.width + c) = some Cell.CrossedOut) &&
          ! colSolvedT puz b' c) = true
      then { b' with items := b'.items.set (row * b.width + c) Cell.Empty }
      else b')
    (List.range b.width) b ⟨rfl, rfl, rfl⟩ hstep
  unfold revertRowM revertRowT annotGo
  exact h.1

theorem crossColM_eq (b : Board C) (col : Nat) (hcol : col < b.width)
    (hlen : b.items.length = b.width * b.height) :
    crossColM b col = some (crossColT b col) := by
  have hstep : ∀ (b' : Board C) (r : Nat),
      (b'.width = b.width ∧ b'.height = b.height ∧ b'.items.length = b.items.length) →
      r ∈ List.range b.height →
      (do
        let cell ← b'.get? r col
        if cell = Cell.Empty then b'.set? r col Cell.CrossedOut else pure b') =
        some (if (decide (b'.items.get? (r * b.width + col) = some Cell.Empty) && true) = true
          then { b' with items := b'.items.set (r * b.width + col) Cell.CrossedOut }
          else b') ∧
      ((if (decide (b'.items.get? (r * b.width + col) = some Cell.Empty) && true) = true
          then { b' with items := b'.items.set (r * b.width + col) Cell.CrossedOut }
          else b').width = b.width ∧
        (if (decide (b'.items.get? (r * b.width + col) = some Cell.Empty) && true) = true
          then { b' with items := b'.items.set (r * b.width + col) Cell.CrossedOut }
          else b').height = b.height ∧
        (if (decide (b'.items.get? (r * b.width + col) = some Cell.Empty) && true) = true
          then { b' with items := b'.items.set (r * b.width + col) Cell.CrossedOut }
          else b').items.length = b.items.length) := by
    intro b' r hP hr
    obtain ⟨hw, hh, hl⟩ := hP
    have hr' : r < b.height := List.mem_range.mp hr
    have hidx : r * b.width + col < b'.items.length := by
      rw [hl, hlen]
      exact flatIdx_lt hr' hcol
    obtain ⟨cell, hcell⟩ := get?_isSome_of_lt hidx
    have hget : b'.get? r col = some cell := by
      rw [Board.get?, hw]
      exact hcell
    constructor
    · rw [hget]
      simp only [Option.bind_eq_bind, Option.some_bind]
      by_cases hE : cell = Cell.Empty
      · subst hE
        rw [if_pos rfl, Board.set?, if_pos (by rw [hw]; exact hidx), hcell,
          if_pos (by simp), hw]
      · rw [if_neg hE, hcell, if_neg (by simp [hE])]
        rfl
    · by_cases hE : (decide (b'.items.get? (r * b.width + col) = some Cell.Empty) && true) = true
      · rw [if_pos hE]
        exact ⟨hw, hh, by simp [List.length_set, hl]⟩
      · rw [if_neg hE]
        exact ⟨hw, hh, hl⟩
  have h := foldlM_eq_foldl
    (fun b' : Board C => b'.width = b.width ∧ b'.height = b.height ∧
      b'.items.length = b.items.length)
    (fun b' r => do
      let cell ← b'.get? r col
      if cell = Cell.Empty then b'.set? r col Cell.CrossedOut else pure b')
    (fun b' r =>
      if (decide (b'.items.get? (r * b.width + col) = some Cell.Empty) && true) = true
      then { b' with items := b'.items.set (r * b.width + col) Cell.CrossedOut }
      else b')
    (List.range b.height) b ⟨rfl, rfl, rfl⟩ hstep
  unfold crossColM crossColT annotGo
  exact h.1

theorem revertColM_eq (puz : Puzzle C) (b : Board C) (col : Nat) (hcol : col < b.width)
    (hlen : b.items.length = b.width * b.height)
    (hrc : puz.row_constraints.length = b.height) :
    revertColM puz b col = some (revertColT puz b col) := by
  have hstep : ∀ (b' : Board C) (r : Nat),
      (b'.width = b.width ∧ b'.height = b.height ∧ b'.items.length = b.items.length) →
      r ∈ List.range b.height →
      (do
        let cell ← b'.get? r col
        if cell = Cell.CrossedOut then do
          let solved ← puz.row_is_solved? b' r
          if solved then pure b' else b'.set? r col Cell.Empty
        else pure b') =
        some (if (decide (b'.items.get? (r * b.width + col) = some Cell.CrossedOut) &&
              ! rowSolvedT puz b' r) = true
          then { b' with items := b'.items.set (r * b.width + col) Cell.Empty }
          else b') ∧
      ((if (decide (b'.items.get? (r * b.width + col) = some Cell.CrossedOut) &&
              ! rowSolvedT puz b' r) = true
          then { b' with items := b'.items.set (r * b.width + col) Cell.Empty }
          else b').width = b.width ∧
        (if (decide (b'.items.get? (r * b.width + col) = some Cell.CrossedOut) &&
              ! rowSolvedT puz b' r) = true
          then { b' with items := b'.items.set (r * b.width + col) Cell.Empty }
          else b').height = b.height ∧
        (if (decide (b'.items.get? (r * b.width + col) = some Cell.CrossedOut) &&
              ! rowSolvedT puz b' r) = true
          then { b' with items := b'.items.set (r * b.width + col) Cell.Empty }
          else b').items.length = b.items.length) := by
    intro b' r hP hr
    obtain ⟨hw, hh, hl⟩ := hP
    have hr' : r < b.height := List.mem_range.mp hr
    have hidx : r * b.width + col < b'.items.length := by
      rw [hl, hlen]
      exact flatIdx_lt hr' hcol
    obtain ⟨cell, hcell⟩ := get?_isSome_of_lt hidx
    have hget : b'.get? r col = some cell := by
      rw [Board.get?, hw]
      exact hcell
    have hsolved : puz.row_is_solved? b' r = some (rowSolvedT puz b' r) := by
      apply row_is_solved?_eq puz b' r (by rw [hrc]; exact hr')
      rw [hw, hl, hlen]
      exact rowSliceBound hr'
    constructor
    · rw [hget]
      simp only [Option.bind_eq_bind, Option.some_bind]
      by_cases hX : cell = Cell.CrossedOut
      · subst hX
        rw [if_pos rfl, hsolved]
        simp only [Option.bind_eq_bind, Option.some_bind]
        rw [hcell]
        cases hs : rowSolvedT puz b' r with
        | true =>
          rw [if_pos rfl, if_neg (by simp)]
          rfl
        | false =>
          rw [if_neg (by simp), Board.set?, if_pos (by rw [hw]; exact hidx),
            if_pos (by simp), hw]
      · rw [if_neg hX, hcell, if_neg (by simp [hX])]
        rfl
    · by_cases hE : (decide (b'.items.get? (r * b.width + col) = some Cell.CrossedOut) &&
          ! rowSolvedT puz b' r) = true
      · rw [if_pos hE]
        exact ⟨hw, hh, by simp [List.length_set, hl]⟩
      · rw [if_neg hE]
        exact ⟨hw, hh, hl⟩
  have h := foldlM_eq_foldl
    (fun b' : Board C => b'.width = b.width ∧ b'.height = b.height ∧
      b'.items.length = b.items.length)
    (fun b' r => do
      let cell ← b'.get? r col
      if cell = Cell.CrossedOut then do
        let solved ← puz.row_is_solved? b' r
        if solved then pure b' else b'.set? r col Cell.Empty
      else pure b')
    (fun b' r =>
      if (decide (b'.items.get? (r * b.width + col) = some Cell.CrossedOut) &&
          ! rowSolvedT puz b' r) = true
      then { b' with items := b'.items.set (r * b.width + col) Cell.Empty }
      else b')
    (List.range b.height) b ⟨rfl, rfl, rfl⟩ hstep
  unfold revertColM revertColT annotGo
  exact h.1

/-- `check_rowT` written out, when the auto-cross option is on. -/
theorem check_rowT_eq (p : Picross C) (row : Nat) (hauto : p.auto_cross = true) :
    p.check_rowT row = { p with
      row_status := p.row_status.set row (rowSolvedT p.puzzle p.board row)
      board := rowPassT p.puzzle p.board row (rowSolvedT p.puzzle p.board row) } := by
  unfold Picross.check_rowT
  simp [hauto]

/-- `check_columnT` written out, when the auto-cross option is on. -/
theorem check_columnT_eq (p : Picross C) (col : Nat) (hauto : p.auto_cross = true) :
    p.check_columnT col = { p with
      column_status := p.column_status.set col (colSolvedT p.puzzle p.board col)
      board := colPassT p.puzzle p.board col (colSolvedT p.puzzle p.board col) } := by
  unfold Picross.check_columnT
  simp [hauto]

theorem check_rowT_shape (p : Picross C) (row : Nat) (hG : Good p)
    (hauto : p.auto_cross = true) (hrow : row < p.board.height) :
    (p.check_rowT row).puzzle = p.puzzle ∧
    (p.check_rowT row).auto_cross = true ∧
    (p.check_rowT row).row_status = p.row_status.set row (rowSolvedT p.puzzle p.board row) ∧
    (p.check_rowT row).column_status = p.column_status ∧
    (p.check_rowT row).board = rowPassT p.puzzle p.board row (rowSolvedT p.puzzle p.board row) ∧
    BE (p.check_rowT row).board p.board ∧
    Good (p.check_rowT row) := by
  obtain ⟨hlen, hrc, hcc, hrs, hcs⟩ := hG
  rw [check_rowT_eq p row hauto]
  obtain ⟨hBE, _, _⟩ := rowPassT_spec p.puzzle p.board row
    (rowSolvedT p.puzzle p.board row) hrow hlen
  refine ⟨rfl, hauto, rfl, rfl, rfl, hBE, ?_⟩
  refine ⟨?_, ?_, ?_, ?_, ?_⟩
  · rw [BE.items_length hBE, hBE.1, hBE.2.1]
    exact hlen
  · rw [hBE.2.1]; exact hrc
  · rw [hBE.1]; exact hcc
  · rw [hBE.2.1, List.length_set]; exact hrs
  · rw [hBE.1]; exact hcs

theorem check_columnT_shape (p : Picross C) (col : Nat) (hG : Good p)
    (hauto : p.auto_cross = true) (hcol : col < p.board.width) :
    (p.check_columnT col).puzzle = p.puzzle ∧
    (p.check_columnT col).auto_cross = true ∧
    (p.check_columnT col).row_status = p.row_status ∧
    (p.check_columnT col).column_status =
      p.column_status.set col (colSolvedT p.puzzle p.board col) ∧
    (p.check_columnT col).board = colPassT p.puzzle p.board col (colSolvedT p.puzzle p.board col) ∧
    BE (p.check_columnT col).board p.board ∧
    Good (p.check_columnT col) := by
  obtain ⟨hlen, hrc, hcc, hrs, hcs⟩ := hG
  rw [check_columnT_eq p col hauto]
  obtain ⟨hBE, _, _⟩ := colPassT_spec p.puzzle p.board col
    (colSolvedT p.puzzle p.board col) hcol hlen
  refine ⟨rfl, hauto, rfl, rfl, rfl, hBE, ?_⟩
  refine ⟨?_, ?_, ?_, ?_, ?_⟩
  · rw [BE.items_length hBE, hBE.1, hBE.2.1]
    exact hlen
  · rw [hBE.2.1]; exact hrc
  · rw [hBE.1]; exact hcc
  · rw [hBE.2.1]; exact hrs
  · rw [hBE.1, List.length_set]; exact hcs

theorem check_row?_eq (p : Picross C) (row : Nat) (hG : Good p)
    (hauto : p.auto_cross = true) (hrow : row < p.board.height) :
    p.check_row? row = some (p.check_rowT row) := by
  obtain ⟨hlen, hrc, hcc, hrs, hcs⟩ := hG
  have hsolved := row_is_solved?_eq p.puzzle p.board row (by rw [hrc]; exact hrow)
    (by rw [hlen]; exact rowSliceBound hrow)
  have hcross := crossRowM_eq p.board row hrow hlen
  have hrevert := revertRowM_eq p.puzzle p.board row hrow hlen hcc
  unfold Picross.check_row?
  rw [hsolved]
  simp only [Option.bind_eq_bind, Option.some_bind]
  rw [if_pos (show row < p.row_status.length by rw [hrs]; exact hrow)]
  rw [check_rowT_eq p row hauto]
  cases hc : rowSolvedT p.puzzle p.board row with
  | true =>
    simp only [hauto, if_pos rfl, if_true]
    rw [show ({ p with row_status := p.row_status.set row true } : Picross C).board
        = p.board from rfl] at *
    simp [hcross, rowPassT]
  | false =>
    simp only [hauto, if_true]
    rw [if_neg (by simp)]
    simp [hrevert, rowPassT]

theorem check_column?_eq (p : Picross C) (col : Nat) (hG : Good p)
    (hauto : p.auto_cross = true) (hcol : col < p.board.width) :
    p.check_column? col = some (p.check_columnT col) := by
  obtain ⟨hlen, hrc, hcc, hrs, hcs⟩ := hG
  have hsolved := column_is_solved?_eq p.puzzle p.board col (by rw [hcc]; exact hcol)
  have hcross := crossColM_eq p.board col hcol hlen
  have hrevert := revertColM_eq p.puzzle p.board col hcol hlen hrc
  unfold Picross.check_column?
  rw [hsolved]
  simp only [Option.bind_eq_bind, Option.some_bind]
  rw [if_pos (show col < p.column_status.length by rw [hcs]; exact hcol)]
  rw [check_columnT_eq p col hauto]
  cases hc : colSolvedT p.puzzle p.board col with
  | true =>
    simp only [hauto, if_pos rfl, if_true]
    simp [hcross, colPassT]
  | false =>
    simp only [hauto, if_true]
    rw [if_neg (by simp)]
    simp [hrevert, colPassT]

theorem check?_eq (p : Picross C) (row col : Nat) (hG : Good p)
    (hauto : p.auto_cross = true) (hrow : row < p.board.height)
    (hcol : col < p.board.width) :
    p.check? row col = some (p.checkT row col) := by
  obtain ⟨_, _, _, _, _, hBE, hG1⟩ := check_rowT_shape p row hG hauto hrow
  have hauto1 : (p.check_rowT row).auto_cross = true :=
    (check_rowT_shape p row hG hauto hrow).2.1
  have hcol1 : col < (p.check_rowT row).board.width := by
    rw [hBE.1]
    exact hcol
  unfold Picross.check?
  rw [check_row?_eq p row ⟨hG.1, hG.2.1, hG.2.2.1, hG.2.2.2.1, hG.2.2.2.2⟩ hauto hrow]
  simp only [Option.bind_eq_bind, Option.some_bind]
  exact check_column?_eq (p.check_rowT row) col hG1 hauto1 hcol1

theorem setT_good (p : Picross C) (row col : Nat) (x : Cell C) (hG : Good p) :
    Good { p with board := p.board.setT row col x } := by
  obtain ⟨hlen, hrc, hcc, hrs, hcs⟩ := hG
  exact ⟨by simp [Board.setT, List.length_set, hlen], hrc, hcc, hrs, hcs⟩

theorem mutate?_eq (p : Picross C) (m : Mutation C) (row col : Nat) (hG : Good p)
    (hauto : p.auto_cross = true) (hrow : row < p.board.height)
    (hcol : col < p.board.width) :
    p.mutate? m row col = some (p.mutateT m row col) := by
  have hidx : row * p.board.width + col < p.board.items.length := by
    rw [hG.1]
    exact flatIdx_lt hrow hcol
  cases m with
  | place v =>
    show (do
      let b ← p.board.set? row col (Cell.Filled v)
      Picross.check? { p with board := b } row col) =
      some (Picross.checkT { p with board := p.board.setT row col (Cell.Filled v) } row col)
    rw [Board.set?_eq_setT p.board row col (Cell.Filled v) hidx]
    simp only [Option.bind_eq_bind, Option.some_bind]
    exact check?_eq _ row col (setT_good p row col _ hG) hauto hrow hcol
  | crossOut =>
    show (do
      let b ← p.board.set? row col Cell.CrossedOut
      Picross.check? { p with board := b } row col) =
      some (Picross.checkT { p with board := p.board.setT row col Cell.CrossedOut } row col)
    rw [Board.set?_eq_setT p.board row col Cell.CrossedOut hidx]
    simp only [Option.bind_eq_bind, Option.some_bind]
    exact check?_eq _ row col (setT_good p row col _ hG) hauto hrow hcol
  | clear =>
    show (do
      let b ← p.board.set? row col Cell.Empty
      Picross.check? { p with board := b } row col) =
      some (Picross.checkT { p with board := p.board.setT row col Cell.Empty } row col)
    rw [Board.set?_eq_setT p.board row col Cell.Empty hidx]
    simp only [Option.bind_eq_bind, Option.some_bind]
    exact check?_eq _ row col (setT_good p row col _ hG) hauto hrow hcol

end Bridging

section Invariant

variable {C : Type} [DecidableEq C]

/-- The solved-bit vectors agree with recomputation on every line. -/
def StatusInv (p : Picross C) : Prop :=
  (∀ i, i < p.board.height → p.row_status.getD i false = rowSolvedT p.puzzle p.board i) ∧
  (∀ j, j < p.board.width → p.column_status.getD j false = colSolvedT p.puzzle p.board j)

/-- Every currently solved line has no `Empty` cell (they were auto-crossed). -/
def NoEmptyInSolved (p : Picross C) : Prop :=
  (∀ i, i < p.board.height → rowSolvedT p.puzzle p.board i = true →
    ∀ c, c < p.board.width →
      p.board.items.get? (i * p.board.width + c) ≠ some Cell.Empty) ∧
  (∀ j, j < p.board.width → colSolvedT p.puzzle p.board j = true →
    ∀ r, r < p.board.height →
      p.board.items.get? (r * p.board.width + j) ≠ some Cell.Empty)

/-- Every `CrossedOut` cell lies on a currently solved row or column. -/
def CrossJustified (p : Picross C) : Prop :=
  ∀ r c, r < p.board.height → c < p.board.width →
    p.board.items.get? (r * p.board.width + c) = some Cell.CrossedOut →
    rowSolvedT p.puzzle p.board r = true ∨ colSolvedT p.puzzle p.board c = true

/-- The controller invariant maintained by construction and by every mutation. -/
def CtrlInv (p : Picross C) : Prop :=
  Good p ∧ p.auto_cross = true ∧ StatusInv p ∧ NoEmptyInSolved p ∧ CrossJustified p

theorem Board.ext_board {b b' : Board C} (hi : b.items = b'.items) (hw : b.width = b'.width)
    (hh : b.height = b'.height) : b = b' := by
  cases b
  cases b'
  simp only at hi hw hh
  simp [hi, hw, hh]

theorem Picross.ext_state {p p' : Picross C} (hpz : p.puzzle = p'.puzzle)
    (hb : p.board = p'.board) (hr : p.row_status = p'.row_status)
    (hc : p.column_status = p'.column_status) (ha : p.auto_cross = p'.auto_cross) :
    p = p' := by
  cases p
  cases p'
  simp only at hpz hb hr hc ha
  simp [hpz, hb, hr, hc, ha]

theorem getD_set_eq {α : Type} {l : List α} {n : Nat} (hn : n < l.length) (a d : α) :
    (l.set n a).getD n d = a := by
  rw [List.getD_eq_get?, List.get?_set_eq_of_lt a hn]
  rfl

theorem getD_set_ne {α : Type} (l : List α) {m n : Nat} (hmn : n ≠ m) (a d : α) :
    (l.set m a).getD n d = l.getD n d := by
  rw [List.getD_eq_get?, List.getD_eq_get?, List.get?_set_ne a l (fun h => hmn h.symm)]

/-- A single write outside row `i` leaves row `i`'s slice unchanged. -/
theorem rowT_setT_ne (b : Board C) {row col i : Nat} (x : Cell C)
    (hcol : col < b.width) (hne : i ≠ row) :
    (b.setT row col x).rowT i = b.rowT i := by
  apply List.ext_get?
  intro j
  by_cases hj : j < b.width
  · rw [show (b.setT row col x).rowT i = (b.setT row col x).rowT i from rfl]
    have h1 : (b.setT row col x).rowT i = ((b.setT row col x).items.drop
        (i * (b.setT row col x).width)).take (b.setT row col x).width := rfl
    rw [rowT_get? b i hj]
    have hw : (b.setT row col x).width = b.width := rfl
    have := rowT_get? (b.setT row col x) i (by rw [hw]; exact hj)
    rw [this, hw]
    apply Board.items_get?_setT_ne
    intro h
    exact hne (flatIdx_inj hj hcol h.symm).1
  · have hlen1 : ((b.setT row col x).rowT i).length ≤ b.width := by
      unfold Board.rowT
      rw [List.length_take]
      exact min_le_left _ _
    have hlen2 : (b.rowT i).length ≤ b.width := by
      unfold Board.rowT
      rw [List.length_take]
      exact min_le_left _ _
    rw [List.get?_eq_none.mpr (by omega), List.get?_eq_none.mpr (by omega)]

theorem rowSolvedT_setT_ne (puz : Puzzle C) (b : Board C) {row col i : Nat} (x : Cell C)
    (hcol : col < b.width) (hne : i ≠ row) :
    rowSolvedT puz (b.setT row col x) i = rowSolvedT puz b i := by
  unfold rowSolvedT
  rw [rowT_setT_ne b x hcol hne]

theorem columnGo_mod_congr (b b' : Board C) (hw : b'.width = b.width)
    (j : Nat) (hj : ∀ m, m % b.width = j % b.width → b'.items.get? m = b.items.get? m) :
    ∀ fuel i, i % b.width = j % b.width → b'.columnGo fuel i = b.columnGo fuel i := by
  intro fuel
  induction fuel with
  | zero => intro i _; rfl
  | succ fuel ih =>
    intro i hi
    rw [Board.columnGo_succ, Board.columnGo_succ, hj i hi, hw]
    cases b.items.get? i with
    | none => rfl
    | some c =>
      rw [ih (i + b.width) (by rw [Nat.add_mod_right]; exact hi)]

/-- A single write outside column `j` leaves column `j` unchanged. -/
theorem column_setT_ne (b : Board C) {row col j : Nat} (x : Cell C)
    (hcol : col < b.width) (hj : j < b.width) (hne : j ≠ col) :
    (b.setT row col x).column j = b.column j := by
  unfold Board.column
  have hlen : (b.setT row col x).items.length = b.items.length :=
    Board.setT_items_length b row col x
  rw [hlen]
  apply columnGo_mod_congr b (b.setT row col x) rfl j
  · intro m hm
    apply Board.items_get?_setT_ne
    intro h
    have : (row * b.width + col) % b.width = col := by
      rw [Nat.mul_comm, Nat.mul_add_mod, Nat.mod_eq_of_lt hcol]
    rw [h] at this
    rw [hm, Nat.mod_eq_of_lt hj] at this
    exact hne this
  · exact rfl

theorem colSolvedT_setT_ne (puz : Puzzle C) (b : Board C) {row col j : Nat} (x : Cell C)
    (hcol : col < b.width) (hj : j < b.width) (hne : j ≠ col) :
    colSolvedT puz (b.setT row col x) j = colSolvedT puz b j := by
  unfold colSolvedT
  rw [column_setT_ne b x hcol hj hne]

/-- Index-aware invariant propagation along a fold over `List.range n`. -/
theorem foldl_range_invariant {σ : Type} (step : σ → Nat → σ) (P : Nat → σ → Prop)
    (n : Nat) (s0 : σ) (h0 : P 0 s0)
    (hstep : ∀ k s, k < n → P k s → P (k + 1) (step s k)) :
    P n ((List.range n).foldl step s0) := by
  have H : ∀ k, k ≤ n → P k ((List.range k).foldl step s0) := by
    intro k
    induction k with
    | zero => intro _; exact h0
    | succ k ih =>
      intro hk
      rw [List.range_succ, List.foldl_append]
      exact hstep k _ (by omega) (ih (by omega))
  exact H n le_rfl

theorem crossResult_ne_empty (o : Option (Cell C)) :
    (if o = some Cell.Empty then some Cell.CrossedOut else o) ≠ some Cell.Empty := by
  by_cases h : o = some Cell.Empty
  · simp [h]
  · simp [h]

theorem crossResult_crossed (o : Option (Cell C))
    (h : (if o = some Cell.Empty then some Cell.CrossedOut else o) = some Cell.CrossedOut) :
    o = some Cell.Empty ∨ o = some Cell.CrossedOut := by
  by_cases h1 : o = some Cell.Empty
  · exact Or.inl h1
  · rw [if_neg h1] at h
    exact Or.inr h

theorem revertResult_crossed (o : Option (Cell C)) (x : Bool)
    (h : (if o = some Cell.CrossedOut ∧ x = false then some Cell.Empty else o) =
      some Cell.CrossedOut) :
    o = some Cell.CrossedOut ∧ x = true := by
  by_cases h1 : o = some Cell.CrossedOut ∧ x = false
  · rw [if_pos h1] at h
    exact absurd h (by simp)
  · rw [if_neg h1] at h
    refine ⟨h, ?_⟩
    cases x with
    | true => rfl
    | false => exact absurd ⟨h, rfl⟩ h1

theorem revertResult_ne_empty (o : Option (Cell C)) (x : Bool) (hx : x = true)
    (ho : o ≠ some Cell.Empty) :
    (if o = some Cell.CrossedOut ∧ x = false then some Cell.Empty else o) ≠
      some Cell.Empty := by
  subst hx
  rw [if_neg (by simp)]
  exact ho

theorem checkT_restores (p : Picross C) (row col : Nat)
    (hG : Good p) (hauto : p.auto_cross = true)
    (hrow : row < p.board.height) (hcol : col < p.board.width)
    (hSrow : ∀ i, i < p.board.height → i ≠ row →
      p.row_status.getD i false = rowSolvedT p.puzzle p.board i)
    (hScol : ∀ j, j < p.board.width → j ≠ col →
      p.column_status.getD j false = colSolvedT p.puzzle p.board j)
    (hJrow : ∀ i, i < p.board.height → i ≠ row → rowSolvedT p.puzzle p.board i = true →
      ∀ c, c < p.board.width → p.board.items.get? (i * p.board.width + c) ≠ some Cell.Empty)
    (hJcol : ∀ j, j < p.board.width → j ≠ col → colSolvedT p.puzzle p.board j = true →
      ∀ r, r < p.board.height → p.board.items.get? (r * p.board.width + j) ≠ some Cell.Empty)
    (hJ2 : ∀ r c, r < p.board.height → c < p.board.width → r ≠ row → c ≠ col →
      p.board.items.get? (r * p.board.width + c) = some Cell.CrossedOut →
      rowSolvedT p.puzzle p.board r = true ∨ colSolvedT p.puzzle p.board c = true) :
    CtrlInv (p.checkT row col) := by
  obtain ⟨hpz1, hauto1, hrs1, hcs1, hb1, hBE1, hG1⟩ := check_rowT_shape p row hG hauto hrow
  have hw1 : (p.check_rowT row).board.width = p.board.width := hBE1.1
  have hh1 : (p.check_rowT row).board.height = p.board.height := hBE1.2.1
  have hcol1 : col < (p.check_rowT row).board.width := by rw [hw1]; exact hcol
  obtain ⟨hpz2, hauto2, hrs2, hcs2, hb2, hBE2, hG2⟩ :=
    check_columnT_shape (p.check_rowT row) col hG1 hauto1 hcol1
  have hq2 : p.checkT row col = (p.check_rowT row).check_columnT col := rfl
  rw [hq2]
  have hBEall : BE ((p.check_rowT row).check_columnT col).board p.board :=
    BE.trans' hBE2 hBE1
  have hpzall : ((p.check_rowT row).check_columnT col).puzzle = p.puzzle :=
    hpz2.trans hpz1
  have hw2 : ((p.check_rowT row).check_columnT col).board.width = p.board.width := hBEall.1
  have hh2 : ((p.check_rowT row).check_columnT col).board.height = p.board.height :=
    hBEall.2.1
  -- solvedness of every line is unchanged throughout
  have hRS2 : ∀ i, rowSolvedT ((p.check_rowT row).check_columnT col).puzzle
      ((p.check_rowT row).check_columnT col).board i = rowSolvedT p.puzzle p.board i := by
    intro i
    rw [hpzall]
    exact rowSolvedT_congr hBEall p.puzzle i
  have hCS2 : ∀ j, colSolvedT ((p.check_rowT row).check_columnT col).puzzle
      ((p.check_rowT row).check_columnT col).board j = colSolvedT p.puzzle p.board j := by
    intro j
    rw [hpzall]
    exact colSolvedT_congr hBEall p.puzzle j
  have hRS1 : ∀ i, rowSolvedT p.puzzle (p.check_rowT row).board i =
      rowSolvedT p.puzzle p.board i := fun i => rowSolvedT_congr hBE1 p.puzzle i
  have hCS1 : ∀ j, colSolvedT p.puzzle (p.check_rowT row).board j =
      colSolvedT p.puzzle p.board j := fun j => colSolvedT_congr hBE1 p.puzzle j
  -- the board produced by the column pass, expressed over the row-pass board
  have hb2' : ((p.check_rowT row).check_columnT col).board =
      colPassT p.puzzle (p.check_rowT row).board col (colSolvedT p.puzzle p.board col) := by
    rw [hb2, hpz1, colSolvedT_congr hBE1 p.puzzle col]
  -- row-pass cell facts
  obtain ⟨_, hNe1, hEq1⟩ := rowPassT_spec p.puzzle p.board row
    (rowSolvedT p.puzzle p.board row) hrow hG.1
  rw [← hb1] at hNe1 hEq1
  have hA1 : ∀ r c, r < p.board.height → c < p.board.width → r ≠ row →
      (p.check_rowT row).board.items.get? (r * p.board.width + c) =
        p.board.items.get? (r * p.board.width + c) := by
    intro r c hr hc hne
    apply hNe1
    intro c' hc' heq
    exact hne (flatIdx_inj hc hc' heq).1
  have hA2 : ∀ c, c < p.board.width →
      (p.check_rowT row).board.items.get? (row * p.board.width + c) =
        if rowSolvedT p.puzzle p.board row = true then
          (if p.board.items.get? (row * p.board.width + c) = some Cell.Empty
            then some Cell.CrossedOut
            else p.board.items.get? (row * p.board.width + c))
        else
          (if p.board.items.get? (row * p.board.width + c) = some Cell.CrossedOut ∧
              colSolvedT p.puzzle p.board c = false then some Cell.Empty
            else p.board.items.get? (row * p.board.width + c)) := hEq1
  -- column-pass cell facts (over the row-pass board)
  obtain ⟨_, hNe2, hEq2⟩ := colPassT_spec p.puzzle (p.check_rowT row).board col
    (colSolvedT p.puzzle p.board col) hcol1 hG1.1
  rw [← hb2'] at hNe2 hEq2
  rw [hw1, hh1] at hNe2 hEq2
  have hB1 : ∀ r c, r < p.board.height → c < p.board.width → c ≠ col →
      ((p.check_rowT row).check_columnT col).board.items.get? (r * p.board.width + c) =
        (p.check_rowT row).board.items.get? (r * p.board.width + c) := by
    intro r c hr hc hne
    apply hNe2
    intro r' hr' heq
    exact hne (flatIdx_inj hc hcol heq).2
  have hB2 : ∀ r, r < p.board.height →
      ((p.check_rowT row).check_columnT col).board.items.get? (r * p.board.width + col) =
        if colSolvedT p.puzzle p.board col = true then
          (if (p.check_rowT row).board.items.get? (r * p.board.width + col) = some Cell.Empty
            then some Cell.CrossedOut
            else (p.check_rowT row).board.items.get? (r * p.board.width + col))
        else
          (if (p.check_rowT row).board.items.get? (r * p.board.width + col) =
              some Cell.CrossedOut ∧ rowSolvedT p.puzzle p.board r = false
            then some Cell.Empty
            else (p.check_rowT row).board.items.get? (r * p.board.width + col)) := by
    intro r hr
    have := hEq2 r hr
    rw [hRS1 r] at this
    exact this
  -- solved rows of the intermediate board have no Empty cells
  have hQ1rowJ : ∀ i c, i < p.board.height → c < p.board.width →
      rowSolvedT p.puzzle p.board i = true →
      (p.check_rowT row).board.items.get? (i * p.board.width + c) ≠ some Cell.Empty := by
    intro i c hi hc hsolved
    by_cases hir : i = row
    · subst hir
      rw [hA2 c hc, if_pos hsolved]
      exact crossResult_ne_empty _
    · rw [hA1 i c hi hc hir]
      exact hJrow i hi hir hsolved c hc
  -- CrossedOut cells of the intermediate board outside column col are justified
  have hQ1J2 : ∀ r c, r < p.board.height → c < p.board.width → c ≠ col →
      (p.check_rowT row).board.items.get? (r * p.board.width + c) = some Cell.CrossedOut →
      rowSolvedT p.puzzle p.board r = true ∨ colSolvedT p.puzzle p.board c = true := by
    intro r c hr hc hcc hcell
    by_cases hrr : r = row
    · subst hrr
      rw [hA2 c hc] at hcell
      by_cases hrb : rowSolvedT p.puzzle p.board r = true
      · exact Or.inl hrb
      · rw [if_neg hrb] at hcell
        obtain ⟨_, hcs⟩ := revertResult_crossed _ _ hcell
        exact Or.inr hcs
    · rw [hA1 r c hr hc hrr] at hcell
      exact hJ2 r c hr hc hrr hcc hcell
  refine ⟨hG2, hauto2, ⟨?_, ?_⟩, ⟨?_, ?_⟩, ?_⟩
  -- StatusInv, rows
  · intro i hi
    rw [hh2] at hi
    rw [hRS2 i, hrs2, hrs1]
    by_cases hir : i = row
    · subst hir
      rw [getD_set_eq (by rw [hG.2.2.2.1]; exact hrow)]
    · rw [getD_set_ne _ hir]
      exact hSrow i hi hir
  -- StatusInv, columns
  · intro j hj
    rw [hw2] at hj
    rw [hCS2 j, hcs2, hcs1, hpz1, colSolvedT_congr hBE1 p.puzzle col]
    by_cases hjc : j = col
    · subst hjc
      rw [getD_set_eq (by rw [hG.2.2.2.2]; exact hcol)]
    · rw [getD_set_ne _ hjc]
      exact hScol j hj hjc
  -- NoEmptyInSolved, rows
  · intro i hi hsolved c hc
    rw [hh2] at hi
    rw [hw2] at hc ⊢
    rw [hRS2 i] at hsolved
    by_cases hccol : c = col
    · subst hccol
      rw [hB2 i hi]
      by_cases hcs : colSolvedT p.puzzle p.board c = true
      · rw [if_pos hcs]
        exact crossResult_ne_empty _
      · rw [if_neg hcs]
        exact revertResult_ne_empty _ _ hsolved (hQ1rowJ i c hi hc hsolved)
    · rw [hB1 i c hi hc hccol]
      exact hQ1rowJ i c hi hc hsolved
  -- NoEmptyInSolved, columns
  · intro j hj hsolved r hr
    rw [hw2] at hj
    rw [hh2] at hr
    rw [hw2]
    rw [hCS2 j] at hsolved
    by_cases hjc : j = col
    · subst hjc
      rw [hB2 r hr, if_pos hsolved]
      exact crossResult_ne_empty _
    · rw [hB1 r j hr hj hjc]
      by_cases hrr : r = row
      · subst hrr
        rw [hA2 j hj]
        by_cases hrb : rowSolvedT p.puzzle p.board r = true
        · rw [if_pos hrb]
          exact crossResult_ne_empty _
        · rw [if_neg hrb]
          exact revertResult_ne_empty _ _ hsolved (hJcol j hj hjc hsolved r hr)
      · rw [hA1 r j hr hj hrr]
        exact hJcol j hj hjc hsolved r hr
  -- CrossJustified
  · intro r c hr hc hcell
    rw [hh2] at hr
    rw [hw2] at hc hcell
    rw [hRS2 r, hCS2 c]
    by_cases hccol : c = col
    · subst hccol
      rw [hB2 r hr] at hcell
      by_cases hcs : colSolvedT p.puzzle p.board c = true
      · exact Or.inr hcs
      · rw [if_neg hcs] at hcell
        obtain ⟨_, hrs⟩ := revertResult_crossed _ _ hcell
        exact Or.inl hrs
    · rw [hB1 r c hr hc hccol] at hcell
      exact hQ1J2 r c hr hc hccol hcell

theorem CtrlInv_checkT (p : Picross C) (row col : Nat) (hInv : CtrlInv p)
    (hrow : row < p.board.height) (hcol : col < p.board.width) :
    CtrlInv (p.checkT row col) := by
  obtain ⟨hG, hauto, ⟨hSr, hSc⟩, ⟨hJr, hJc⟩, hJ2⟩ := hInv
  exact checkT_restores p row col hG hauto hrow hcol
    (fun i hi _ => hSr i hi) (fun j hj _ => hSc j hj)
    (fun i hi _ => hJr i hi) (fun j hj _ => hJc j hj)
    (fun r c hr hc _ _ => hJ2 r c hr hc)

theorem CtrlInv_writeCheck (p : Picross C) (x : Cell C) (row col : Nat)
    (hInv : CtrlInv p) (hrow : row < p.board.height) (hcol : col < p.board.width) :
    CtrlInv (Picross.checkT { p with board := p.board.setT row col x } row col) := by
  obtain ⟨hG, hauto, ⟨hSr, hSc⟩, ⟨hJr, hJc⟩, hJ2⟩ := hInv
  have hcellne : ∀ r c, c < p.board.width → ¬(r = row ∧ c = col) →
      (p.board.setT row col x).items.get? (r * p.board.width + c) =
        p.board.items.get? (r * p.board.width + c) := by
    intro r c hc hne
    apply Board.items_get?_setT_ne
    intro h
    obtain ⟨h1, h2⟩ := flatIdx_inj hcol hc h
    exact hne ⟨h1.symm, h2.symm⟩
  apply checkT_restores { p with board := p.board.setT row col x } row col
    (setT_good p row col x hG) hauto hrow hcol
  · intro i hi hir
    show p.row_status.getD i false = rowSolvedT p.puzzle (p.board.setT row col x) i
    rw [rowSolvedT_setT_ne p.puzzle p.board x hcol hir]
    exact hSr i hi
  · intro j hj hjc
    show p.column_status.getD j false = colSolvedT p.puzzle (p.board.setT row col x) j
    rw [colSolvedT_setT_ne p.puzzle p.board x hcol hj hjc]
    exact hSc j hj
  · intro i hi hir hsolved c hc
    rw [rowSolvedT_setT_ne p.puzzle p.board x hcol hir] at hsolved
    show (p.board.setT row col x).items.get? (i * p.board.width + c) ≠ some Cell.Empty
    rw [hcellne i c hc (fun h => hir h.1)]
    exact hJr i hi hsolved c hc
  · intro j hj hjc hsolved r hr
    rw [colSolvedT_setT_ne p.puzzle p.board x hcol hj hjc] at hsolved
    show (p.board.setT row col x).items.get? (r * p.board.width + j) ≠ some Cell.Empty
    rw [hcellne r j hj (fun h => hjc h.2)]
    exact hJc j hj hsolved r hr
  · intro r c hr hc hrr hcc hcell
    rw [show ({ p with board := p.board.setT row col x } : Picross C).board =
      p.board.setT row col x from rfl] at hcell
    rw [show ({ p with board := p.board.setT row col x } : Picross C).board.width =
      p.board.width from rfl] at hcell
    rw [hcellne r c hc (fun h => hrr h.1)] at hcell
    show rowSolvedT p.puzzle (p.board.setT row col x) r = true ∨
      colSolvedT p.puzzle (p.board.setT row col x) c = true
    rw [rowSolvedT_setT_ne p.puzzle p.board x hcol hrr,
      colSolvedT_setT_ne p.puzzle p.board x hcol hc hcc]
    exact hJ2 r c hr hc hcell

theorem CtrlInv_mutateT (p : Picross C) (m : Mutation C) (row col : Nat)
    (hInv : CtrlInv p) (hrow : row < p.board.height) (hcol : col < p.board.width) :
    CtrlInv (p.mutateT m row col) := by
  cases m with
  | place v => exact CtrlInv_writeCheck p (Cell.Filled v) row col hInv hrow hcol
  | crossOut => exact CtrlInv_writeCheck p Cell.CrossedOut row col hInv hrow hcol
  | clear => exact CtrlInv_writeCheck p Cell.Empty row col hInv hrow hcol

theorem setT_same (b : Board C) {row col : Nat} {x : Cell C}
    (h : b.items.get? (row * b.width + col) = some x) : b.setT row col x = b :=
  Board.ext_board (List.set_eq_of_get? h) rfl rfl

theorem check_rowT_noop (p : Picross C) (row : Nat) (hInv : CtrlInv p)
    (hrow : row < p.board.height) : p.check_rowT row = p := by
  obtain ⟨hG, hauto, ⟨hSr, hSc⟩, ⟨hJr, hJc⟩, hJ2⟩ := hInv
  obtain ⟨hpz1, hauto1, hrs1, hcs1, hb1, hBE1, _⟩ := check_rowT_shape p row hG hauto hrow
  obtain ⟨_, hNe1, hEq1⟩ := rowPassT_spec p.puzzle p.board row
    (rowSolvedT p.puzzle p.board row) hrow hG.1
  apply Picross.ext_state hpz1 ?_ ?_ hcs1 (hauto1.trans hauto.symm)
  · -- the annotation pass changes nothing
    rw [hb1] at hBE1 ⊢
    apply Board.ext_board ?_ hBE1.1 hBE1.2.1
    · apply List.ext_get?
      intro idx
      by_cases hin : row * p.board.width ≤ idx ∧ idx < row * p.board.width + p.board.width
      · obtain ⟨hin1, hin2⟩ := hin
        have hidx : idx = row * p.board.width + (idx - row * p.board.width) := by omega
        have hc : idx - row * p.board.width < p.board.width := by omega
        rw [hidx, hEq1 _ hc]
        cases hrb : rowSolvedT p.puzzle p.board row with
        | true =>
          rw [if_pos rfl]
          rw [if_neg (hJr row hrow hrb _ hc)]
        | false =>
          rw [if_neg (by simp)]
          by_cases hcr : p.board.items.get?
              (row * p.board.width + (idx - row * p.board.width)) = some Cell.CrossedOut
          · have := hJ2 row _ hrow hc hcr
            rw [hrb] at this
            have hcs' : colSolvedT p.puzzle p.board (idx - row * p.board.width) = true := by
              rcases this with h | h
              · exact absurd h (by simp)
              · exact h
            rw [if_neg (by rw [hcs']; simp)]
          · rw [if_neg (by intro h; exact hcr h.1)]
      · apply hNe1
        intro c hc
        omega
  · rw [hrs1]
    apply List.set_eq_of_get?
    have hlt : row < p.row_status.length := by rw [hG.2.2.2.1]; exact hrow
    rw [getD_of_get? hlt false, hSr row hrow]

theorem check_columnT_noop (p : Picross C) (col : Nat) (hInv : CtrlInv p)
    (hcol : col < p.board.width) : p.check_columnT col = p := by
  obtain ⟨hG, hauto, ⟨hSr, hSc⟩, ⟨hJr, hJc⟩, hJ2⟩ := hInv
  obtain ⟨hpz1, hauto1, hrs1, hcs1, hb1, hBE1, _⟩ := check_columnT_shape p col hG hauto hcol
  obtain ⟨_, hNe1, hEq1⟩ := colPassT_spec p.puzzle p.board col
    (colSolvedT p.puzzle p.board col) hcol hG.1
  apply Picross.ext_state hpz1 ?_ hrs1 ?_ (hauto1.trans hauto.symm)
  · rw [hb1] at hBE1 ⊢
    apply Board.ext_board ?_ hBE1.1 hBE1.2.1
    · apply List.ext_get?
      intro idx
      by_cases hin : ∃ r, r < p.board.height ∧ idx = r * p.board.width + col
      · obtain ⟨r, hr, hidx⟩ := hin
        rw [hidx, hEq1 r hr]
        cases hcb : colSolvedT p.puzzle p.board col with
        | true =>
          rw [if_pos rfl]
          rw [if_neg (hJc col hcol hcb r hr)]
        | false =>
          rw [if_neg (by simp)]
          by_cases hcr : p.board.items.get? (r * p.board.width + col) = some Cell.CrossedOut
          · have := hJ2 r col hr hcol hcr
            rw [hcb] at this
            have hrs' : rowSolvedT p.puzzle p.board r = true := by
              rcases this with h | h
              · exact h
              · exact absurd h (by simp)
            rw [if_neg (by rw [hrs']; simp)]
          · rw [if_neg (by intro h; exact hcr h.1)]
      · apply hNe1
        intro r hr
        intro heq
        exact hin ⟨r, hr, heq⟩
  · rw [hcs1]
    apply List.set_eq_of_get?
    have hlt : col < p.column_status.length := by rw [hG.2.2.2.2]; exact hcol
    rw [getD_of_get? hlt false, hSc col hcol]

theorem checkT_noop (p : Picross C) (row col : Nat) (hInv : CtrlInv p)
    (hrow : row < p.board.height) (hcol : col < p.board.width) :
    p.checkT row col = p := by
  show (p.check_rowT row).check_columnT col = p
  rw [check_rowT_noop p row hInv hrow]
  exact check_columnT_noop p col hInv hcol

end Invariant

section Construction

variable {C : Type} [DecidableEq C]

/-- Total in-range form of `Picross::new` (same loops as `Picross.new?`). -/
def Picross.newT (puzzle : Puzzle C) : Picross C :=
  let p0 : Picross C := {
    puzzle := puzzle
    board := Board.new_empty puzzle.row_constraints.length puzzle.column_constraints.length
    row_status := List.replicate puzzle.row_constraints.length false
    column_status := List.replicate puzzle.column_constraints.length false
    auto_cross := true }
  let p1 := (List.range p0.height).foldl (fun p r => p.check_rowT r) p0
  (List.range p1.width).foldl (fun p c => p.check_columnT c) p1

theorem foldlM_option_inv {σ : Type} (stepM : σ → Nat → Option σ) (R : σ → Prop)
    (hstep : ∀ s i s', stepM s i = some s' → R s → R s') :
    ∀ (l : List Nat) (s r : σ), l.foldlM stepM s = some r → R s → R r := by
  intro l
  induction l with
  | nil =>
    intro s r h hs
    have : s = r := by
      have : (pure s : Option σ) = some r := h
      exact Option.some.inj this
    exact this ▸ hs
  | cons i l ih =>
    intro s r h hs
    rw [List.foldlM_cons] at h
    cases hstep1 : stepM s i with
    | none => rw [hstep1] at h; exact absurd h (by simp)
    | some s1 =>
      rw [hstep1] at h
      simp only [Option.bind_eq_bind, Option.some_bind] at h
      exact ih s1 r h (hstep s i s1 hstep1 hs)

theorem foldlM_mem_bound {σ : Type} (stepM : σ → Nat → Option σ) (f : σ → Nat)
    (hpres : ∀ s i s', stepM s i = some s' → f s' = f s)
    (hbound : ∀ s i s', stepM s i = some s' → i < f s) :
    ∀ (l : List Nat) (s r : σ), l.foldlM stepM s = some r → ∀ i ∈ l, i < f s := by
  intro l
  induction l with
  | nil => intro s r _ i hi; exact absurd hi (List.not_mem_nil i)
  | cons j l ih =>
    intro s r h i hi
    rw [List.foldlM_cons] at h
    cases hstep1 : stepM s j with
    | none => rw [hstep1] at h; exact absurd h (by simp)
    | some s1 =>
      rw [hstep1] at h
      simp only [Option.bind_eq_bind, Option.some_bind] at h
      rcases List.mem_cons.mp hi with hij | hil
      · subst hij
        exact hbound s i s1 hstep1
      · rw [← hpres s j s1 hstep1]
        exact ih s1 r h i hil

theorem set?_shape {b b' : Board C} {row col : Nat} {x : Cell C}
    (h : b.set? row col x = some b') :
    b'.width = b.width ∧ b'.height = b.height ∧ b'.items.length = b.items.length := by
  unfold Board.set? at h
  by_cases hlt : row * b.width + col < b.items.length
  · rw [if_pos hlt] at h
    obtain rfl := Option.some.inj h
    exact ⟨rfl, rfl, by simp [List.length_set]⟩
  · rw [if_neg hlt] at h
    exact absurd h (by simp)

theorem crossRowM_shape {b b' : Board C} {row : Nat} (h : crossRowM b row = some b') :
    b'.width = b.width ∧ b'.height = b.height ∧ b'.items.length = b.items.length := by
  unfold crossRowM at h
  apply foldlM_option_inv _
    (fun s : Board C => s.width = b.width ∧ s.height = b.height ∧
      s.items.length = b.items.length)
    ?_ (List.range b.width) b b' h ⟨rfl, rfl, rfl⟩
  intro s i s' hstep hS
  cases hg : s.get? row i with
  | none => rw [hg] at hstep; exact absurd hstep (by simp)
  | some cell =>
    rw [hg] at hstep
    simp only [Option.bind_eq_bind, Option.some_bind] at hstep
    by_cases hE : cell = Cell.Empty
    · rw [if_pos hE] at hstep
      obtain ⟨h1, h2, h3⟩ := set?_shape hstep
      exact ⟨h1.trans hS.1, h2.trans hS.2.1, h3.trans hS.2.2⟩
    · rw [if_neg hE] at hstep
      obtain rfl := Option.some.inj hstep
      exact hS

theorem revertRowM_shape {puz : Puzzle C} {b b' : Board C} {row : Nat}
    (h : revertRowM puz b row = some b') :
    b'.width = b.width ∧ b'.height = b.height ∧ b'.items.length = b.items.length := by
  unfold revertRowM at h
  apply foldlM_option_inv _
    (fun s : Board C => s.width = b.width ∧ s.height = b.height ∧
      s.items.length = b.items.length)
    ?_ (List.range b.width) b b' h ⟨rfl, rfl, rfl⟩
  intro s i s' hstep hS
  cases hg : s.get? row i with
  | none => rw [hg] at hstep; exact absurd hstep (by simp)
  | some cell =>
    rw [hg] at hstep
    simp only [Option.bind_eq_bind, Option.some_bind] at hstep
    by_cases hX : cell = Cell.CrossedOut
    · rw [if_pos hX] at hstep
      cases hs : puz.column_is_solved? s i with
      | none => rw [hs] at hstep; exact absurd hstep (by simp)
      | some solved =>
        rw [hs] at hstep
        simp only [Option.bind_eq_bind, Option.some_bind] at hstep
        cases solved with
        | true =>
          rw [if_pos rfl] at hstep
          obtain rfl := Option.some.inj hstep
          exact hS
        | false =>
          rw [if_neg (by simp)] at hstep
          obtain ⟨h1, h2, h3⟩ := set?_shape hstep
          exact ⟨h1.trans hS.1, h2.trans hS.2.1, h3.trans hS.2.2⟩
    · rw [if_neg hX] at hstep
      obtain rfl := Option.some.inj hstep
      exact hS

theorem crossColM_shape {b b' : Board C} {col : Nat} (h : crossColM b col = some b') :
    b'.width = b.width ∧ b'.height = b.height ∧ b'.items.length = b.items.length := by
  unfold crossColM at h
  apply foldlM_option_inv _
    (fun s : Board C => s.width = b.width ∧ s.height = b.height ∧
      s.items.length = b.items.length)
    ?_ (List.range b.height) b b' h ⟨rfl, rfl, rfl⟩
  intro s i s' hstep hS
  cases hg : s.get? i col with
  | none => rw [hg] at hstep; exact absurd hstep (by simp)
  | some cell =>
    rw [hg] at hstep
    simp only [Option.bind_eq_bind, Option.some_bind] at hstep
    by_cases hE : cell = Cell.Empty
    · rw [if_pos hE] at hstep
      obtain ⟨h1, h2, h3⟩ := set?_shape hstep
      exact ⟨h1.trans hS.1, h2.trans hS.2.1, h3.trans hS.2.2⟩
    · rw [if_neg hE] at hstep
      obtain rfl := Option.some.inj hstep
      exact hS

theorem revertColM_shape {puz : Puzzle C} {b b' : Board C} {col : Nat}
    (h : revertColM puz b col = some b') :
    b'.width = b.width ∧ b'.height = b.height ∧ b'.items.length = b.items.length := by
  unfold revertColM at h
  apply foldlM_option_inv _
    (fun s : Board C => s.width = b.width ∧ s.height = b.height ∧
      s.items.length = b.items.length)
    ?_ (List.range b.height) b b' h ⟨rfl, rfl, rfl⟩
  intro s i s' hstep hS
  cases hg : s.get? i col with
  | none => rw [hg] at hstep; exact absurd hstep (by simp)
  | some cell =>
    rw [hg] at hstep
    simp only [Option.bind_eq_bind, Option.some_bind] at hstep
    by_cases hX : cell = Cell.CrossedOut
    · rw [if_pos hX] at hstep
      cases hs : puz.row_is_solved? s i with
      | none => rw [hs] at hstep; exact absurd hstep (by simp)
      | some solved =>
        rw [hs] at hstep
        simp only [Option.bind_eq_bind, Option.some_bind] at hstep
        cases solved with
        | true =>
          rw [if_pos rfl] at hstep
          obtain rfl := Option.some.inj hstep
          exact hS
        | false =>
          rw [if_neg (by simp)] at hstep
          obtain ⟨h1, h2, h3⟩ := set?_shape hstep
          exact ⟨h1.trans hS.1, h2.trans hS.2.1, h3.trans hS.2.2⟩
    · rw [if_neg hX] at hstep
      obtain rfl := Option.some.inj hstep
      exact hS

theorem check_row?_shape {p q : Picross C} {r : Nat} (h : p.check_row? r = some q) :
    r < p.puzzle.row_constraints.length ∧ q.puzzle = p.puzzle ∧
    q.board.width = p.board.width ∧ q.board.height = p.board.height ∧
    q.board.items.length = p.board.items.length ∧
    q.row_status.length = p.row_status.length ∧
    q.column_status = p.column_status ∧ q.auto_cross = p.auto_cross := by
  unfold Picross.check_row? at h
  cases hc : p.puzzle.row_is_solved? p.board r with
  | none => rw [hc] at h; exact absurd h (by simp)
  | some completed =>
    rw [hc] at h
    simp only [Option.bind_eq_bind, Option.some_bind] at h
    have hr : r < p.puzzle.row_constraints.length := by
      unfold Puzzle.row_is_solved? at hc
      cases hk : p.puzzle.row_constraints.get? r with
      | none => rw [hk] at hc; exact absurd hc (by simp)
      | some k =>
        rcases List.get?_eq_some.mp hk with ⟨hlt, _⟩
        exact hlt
    refine ⟨hr, ?_⟩
    by_cases hlt : r < p.row_status.length
    · rw [if_pos hlt] at h
      by_cases hauto : p.auto_cross = true
      · rw [if_pos (show ({ p with row_status := p.row_status.set r completed } :
          Picross C).auto_cross = true from hauto)] at h
        cases completed with
        | true =>
          rw [if_pos rfl] at h
          cases hcm : crossRowM p.board r with
          | none =>
            rw [show ({ p with row_status := p.row_status.set r true } :
              Picross C).board = p.board from rfl, hcm] at h
            exact absurd h (by simp)
          | some b =>
            rw [show ({ p with row_status := p.row_status.set r true } :
              Picross C).board = p.board from rfl, hcm] at h
            simp only [Option.bind_eq_bind, Option.some_bind] at h
            obtain rfl := Option.some.inj h
            obtain ⟨h1, h2, h3⟩ := crossRowM_shape hcm
            exact ⟨rfl, h1, h2, h3, by simp [List.length_set], rfl, rfl⟩
        | false =>
          rw [if_neg (by simp)] at h
          cases hcm : revertRowM p.puzzle p.board r with
          | none =>
            rw [show ({ p with row_status := p.row_status.set r false } :
              Picross C).board = p.board from rfl,
              show ({ p with row_status := p.row_status.set r false } :
              Picross C).puzzle = p.puzzle from rfl, hcm] at h
            exact absurd h (by simp)
          | some b =>
            rw [show ({ p with row_status := p.row_status.set r false } :
              Picross C).board = p.board from rfl,
              show ({ p with row_status := p.row_status.set r false } :
              Picross C).puzzle = p.puzzle from rfl, hcm] at h
            simp only [Option.bind_eq_bind, Option.some_bind] at h
            obtain rfl := Option.some.inj h
            obtain ⟨h1, h2, h3⟩ := revertRowM_shape hcm
            exact ⟨rfl, h1, h2, h3, by simp [List.length_set], rfl, rfl⟩
      · rw [if_neg (show ¬(({ p with row_status := p.row_status.set r completed } :
          Picross C).auto_cross = true) from hauto)] at h
        obtain rfl := Option.some.inj h
        exact ⟨rfl, rfl, rfl, rfl, by simp [List.length_set], rfl, rfl⟩
    · rw [if_neg hlt] at h
      exact absurd h (by simp)

theorem check_column?_shape {p q : Picross C} {c : Nat} (h : p.check_column? c = some q) :
    c < p.puzzle.column_constraints.length ∧ q.puzzle = p.puzzle ∧
    q.board.width = p.board.width ∧ q.board.height = p.board.height ∧
    q.board.items.length = p.board.items.length ∧
    q.row_status = p.row_status ∧
    q.column_status.length = p.column_status.length ∧ q.auto_cross = p.auto_cross := by
  unfold Picross.check_column? at h
  cases hc : p.puzzle.column_is_solved? p.board c with
  | none => rw [hc] at h; exact absurd h (by simp)
  | some completed =>
    rw [hc] at h
    simp only [Option.bind_eq_bind, Option.some_bind] at h
    have hcb : c < p.puzzle.column_constraints.length := by
      unfold Puzzle.column_is_solved? at hc
      cases hk : p.puzzle.column_constraints.get? c with
      | none => rw [hk] at hc; exact absurd hc (by simp)
      | some k =>
        rcases List.get?_eq_some.mp hk with ⟨hlt, _⟩
        exact hlt
    refine ⟨hcb, ?_⟩
    by_cases hlt : c < p.column_status.length
    · rw [if_pos hlt] at h
      by_cases hauto : p.auto_cross = true
      · rw [if_pos (show ({ p with column_status := p.column_status.set c completed } :
          Picross C).auto_cross = true from hauto)] at h
        cases completed with
        | true =>
          rw [if_pos rfl] at h
          cases hcm : crossColM p.board c with
          | none =>
            rw [show ({ p with column_status := p.column_status.set c true } :
              Picross C).board = p.board from rfl, hcm] at h
            exact absurd h (by simp)
          | some b =>
            rw [show ({ p with column_status := p.column_status.set c true } :
              Picross C).board = p.board from rfl, hcm] at h
            simp only [Option.bind_eq_bind, Option.some_bind] at h
            obtain rfl := Option.some.inj h
            obtain ⟨h1, h2, h3⟩ := crossColM_shape hcm
            exact ⟨rfl, h1, h2, h3, rfl, by simp [List.length_set], rfl⟩
        | false =>
          rw [if_neg (by simp)] at h
          cases hcm : revertColM p.puzzle p.board c with
          | none =>
            rw [show ({ p with column_status := p.column_status.set c false } :
              Picross C).board = p.board from rfl,
              show ({ p with column_status := p.column_status.set c false } :
              Picross C).puzzle = p.puzzle from rfl, hcm] at h
            exact absurd h (by simp)
          | some b =>
            rw [show ({ p with column_status := p.column_status.set c false } :
              Picross C).board = p.board from rfl,
              show ({ p with column_status := p.column_status.set c false } :
              Picross C).puzzle = p.puzzle from rfl, hcm] at h
            simp only [Option.bind_eq_bind, Option.some_bind] at h
            obtain rfl := Option.some.inj h
            obtain ⟨h1, h2, h3⟩ := revertColM_shape hcm
            exact ⟨rfl, h1, h2, h3, rfl, by simp [List.length_set], rfl⟩
      · rw [if_neg (show ¬(({ p with column_status := p.column_status.set c completed } :
          Picross C).auto_cross = true) from hauto)] at h
        obtain rfl := Option.some.inj h
        exact ⟨rfl, rfl, rfl, rfl, rfl, by simp [List.length_set], rfl⟩
    · rw [if_neg hlt] at h
      exact absurd h (by simp)

/-- A successful `Picross::new` forces the two constraint groups to have the
same length: otherwise one of the construction loops indexes out of range
(this is the argument-swap slip in `Picross::new`, which passes the row
count as the board width). -/
theorem new?_square (puz : Puzzle C) (p : Picross C) (h : Picross.new? puz = some p) :
    puz.row_constraints.length = puz.column_constraints.length := by
  unfold Picross.new? at h
  replace h : (do
      let p1 ← List.foldlM (fun (q : Picross C) r => q.check_row? r)
        { puzzle := puz
          board := Board.new_empty puz.row_constraints.length puz.column_constraints.length
          row_status := List.replicate puz.row_constraints.length false
          column_status := List.replicate puz.column_constraints.length false
          auto_cross := true }
        (List.range puz.column_constraints.length)
      List.foldlM (fun (q : Picross C) c => q.check_column? c) p1
        (List.range p1.width)) = some p := h
  cases h1 : List.foldlM (fun (q : Picross C) r => q.check_row? r)
      { puzzle := puz
        board := Board.new_empty puz.row_constraints.length puz.column_constraints.length
        row_status := List.replicate puz.row_constraints.length false
        column_status := List.replicate puz.column_constraints.length false
        auto_cross := true }
      (List.range puz.column_constraints.length) with
  | none =>
    rw [h1] at h
    exact absurd h (by simp)
  | some p1 =>
    rw [h1] at h
    simp only [Option.bind_eq_bind, Option.some_bind] at h
    -- the row loop bounds the column count by the row count
    have hbound1 : ∀ r ∈ List.range puz.column_constraints.length,
        r < puz.row_constraints.length := by
      intro r hr
      have := foldlM_mem_bound (fun (p : Picross C) r => p.check_row? r)
        (fun p => p.puzzle.row_constraints.length)
        (fun s i s' hs => by
          show s'.puzzle.row_constraints.length = s.puzzle.row_constraints.length
          rw [(check_row?_shape hs).2.1])
        (fun s i s' hs => (check_row?_shape hs).1)
        (List.range puz.column_constraints.length) _ p1 h1 r hr
      exact this
    have hle1 : puz.column_constraints.length ≤ puz.row_constraints.length := by
      rcases Nat.eq_zero_or_pos puz.column_constraints.length with h0 | hpos
      · omega
      · have := hbound1 (puz.column_constraints.length - 1)
          (List.mem_range.mpr (by omega))
        omega
    -- the column loop bounds the row count by the column count
    have hp1 : p1.puzzle = puz ∧ p1.board.width = puz.row_constraints.length := by
      have := foldlM_option_inv (fun (p : Picross C) r => p.check_row? r)
        (fun q => q.puzzle = puz ∧ q.board.width = puz.row_constraints.length)
        (fun s i s' hs hS => by
          obtain ⟨_, h2, h3, _⟩ := check_row?_shape hs
          exact ⟨h2.trans hS.1, h3.trans hS.2⟩)
        (List.range puz.column_constraints.length) _ p1 h1 ⟨rfl, rfl⟩
      exact this
    have hbound2 : ∀ c ∈ List.range p1.width,
        c < puz.column_constraints.length := by
      intro c hcm
      have := foldlM_mem_bound (fun (p : Picross C) c => p.check_column? c)
        (fun p => p.puzzle.column_constraints.length)
        (fun s i s' hs => by
          show s'.puzzle.column_constraints.length = s.puzzle.column_constraints.length
          rw [(check_column?_shape hs).2.1])
        (fun s i s' hs => (check_column?_shape hs).1)
        (List.range p1.width) p1 p h c hcm
      have this' : c < p1.puzzle.column_constraints.length := this
      rw [hp1.1] at this'
      exact this'
    have hle2 : puz.row_constraints.length ≤ puz.column_constraints.length := by
      rcases Nat.eq_zero_or_pos puz.row_constraints.length with h0 | hpos
      · omega
      · have hmem : puz.row_constraints.length - 1 ∈ List.range p1.width := by
          rw [show p1.width = p1.board.width from rfl, hp1.2]
          exact List.mem_range.mpr (by omega)
        have := hbound2 _ hmem
        omega
    omega

/-- When the two groups have equal length every construction step succeeds,
and `Picross::new` computes its total counterpart. -/
theorem new?_eq (puz : Puzzle C)
    (hsq : puz.row_constraints.length = puz.column_constraints.length) :
    Picross.new? puz = some (Picross.newT puz) := by
  have hG0 : Good ({
      puzzle := puz
      board := Board.new_empty puz.row_constraints.length puz.column_constraints.length
      row_status := List.replicate puz.row_constraints.length false
      column_status := List.replicate puz.column_constraints.length false
      auto_cross := true } : Picross C) := by
    refine ⟨?_, ?_, ?_, ?_, ?_⟩
    · simp [Board.new_empty]
    · exact hsq
    · exact hsq.symm
    · simp [Board.new_empty, List.length_replicate, hsq]
    · simp [Board.new_empty, List.length_replicate, hsq]
  have h1 := foldlM_eq_foldl
    (fun q : Picross C => Good q ∧ q.auto_cross = true ∧
      q.board.height = puz.column_constraints.length)
    (fun (q : Picross C) r => q.check_row? r)
    (fun (q : Picross C) r => q.check_rowT r)
    (List.range puz.column_constraints.length)
    ({
       puzzle := puz
       board := Board.new_empty puz.row_constraints.length puz.column_constraints.length
       row_status := List.replicate puz.row_constraints.length false
       column_status := List.replicate puz.column_constraints.length false
       auto_cross := true } : Picross C)
    ⟨hG0, rfl, rfl⟩
    (by
      intro q r hQ hr
      obtain ⟨hGq, hautoq, hhq⟩ := hQ
      have hr' : r < q.board.height := by
        rw [hhq]
        exact List.mem_range.mp hr
      obtain ⟨_, ha, _, _, _, hBE, hGq'⟩ := check_rowT_shape q r hGq hautoq hr'
      exact ⟨check_row?_eq q r hGq hautoq hr', hGq', ha, hBE.2.1.trans hhq⟩)
  have hfold1 := h1.1
  have hGp1 := h1.2.1
  have hautop1 := h1.2.2.1
  have h2 := foldlM_eq_foldl
    (fun q : Picross C => Good q ∧ q.auto_cross = true ∧
      q.board.width = ((List.range puz.column_constraints.length).foldl
        (fun (q : Picross C) r => q.check_rowT r)
        ({ puzzle := puz
           board := Board.new_empty puz.row_constraints.length puz.column_constraints.length
           row_status := List.replicate puz.row_constraints.length false
           column_status := List.replicate puz.column_constraints.length false
           auto_cross := true } : Picross C)).board.width)
    (fun (q : Picross C) c => q.check_column? c)
    (fun (q : Picross C) c => q.check_columnT c)
    (List.range (((List.range puz.column_constraints.length).foldl
        (fun (q : Picross C) r => q.check_rowT r)
        ({ puzzle := puz
           board := Board.new_empty puz.row_constraints.length puz.column_constraints.length
           row_status := List.replicate puz.row_constraints.length false
           column_status := List.replicate puz.column_constraints.length false
           auto_cross := true } : Picross C)).board.width))
    ((List.range puz.column_constraints.length).foldl
        (fun (q : Picross C) r => q.check_rowT r)
        ({ puzzle := puz
           board := Board.new_empty puz.row_constraints.length puz.column_constraints.length
           row_status := List.replicate puz.row_constraints.length false
           column_status := List.replicate puz.column_constraints.length false
           auto_cross := true } : Picross C))
    ⟨hGp1, hautop1, rfl⟩
    (by
      intro q c hQ hc
      obtain ⟨hGq, hautoq, hwq⟩ := hQ
      have hc' : c < q.board.width := by
        rw [hwq]
        exact List.mem_range.mp hc
      obtain ⟨_, ha, _, _, _, hBE, hGq'⟩ := check_columnT_shape q c hGq hautoq hc'
      exact ⟨check_column?_eq q c hGq hautoq hc', hGq', ha, hBE.1.trans hwq⟩)
  show (do
      let p1 ← List.foldlM (fun (q : Picross C) r => q.check_row? r)
        {
          puzzle := puz
          board := Board.new_empty puz.row_constraints.length puz.column_constraints.length
          row_status := List.replicate puz.row_constraints.length false
          column_status := List.replicate puz.column_constraints.length false
          auto_cross := true }
        (List.range puz.column_constraints.length)
      List.foldlM (fun (q : Picross C) c => q.check_column? c) p1
        (List.range p1.width)) = some (Picross.newT puz)
  rw [hfold1]
  simp only [Option.bind_eq_bind, Option.some_bind]
  exact h2.1

/-- Invariant after the first `k` rows have been checked during construction. -/
def RowPhase (puz : Puzzle C) (n k : Nat) (q : Picross C) : Prop :=
  Good q ∧ q.auto_cross = true ∧ q.puzzle = puz ∧
  q.board.width = n ∧ q.board.height = n ∧
  (∀ i, i < k → q.row_status.getD i false = rowSolvedT puz q.board i) ∧
  (∀ i, i < k → rowSolvedT puz q.board i = true →
    ∀ c, c < n → q.board.items.get? (i * n + c) ≠ some Cell.Empty) ∧
  (∀ r c, r < n → c < n → q.board.items.get? (r * n + c) = some Cell.CrossedOut →
    r < k ∧ rowSolvedT puz q.board r = true)

/-- Invariant after the first `m` columns have been checked during construction. -/
def ColPhase (puz : Puzzle C) (n m : Nat) (q : Picross C) : Prop :=
  Good q ∧ q.auto_cross = true ∧ q.puzzle = puz ∧
  q.board.width = n ∧ q.board.height = n ∧
  (∀ i, i < n → q.row_status.getD i false = rowSolvedT puz q.board i) ∧
  (∀ i, i < n → rowSolvedT puz q.board i = true →
    ∀ c, c < n → q.board.items.get? (i * n + c) ≠ some Cell.Empty) ∧
  (∀ j, j < m → q.column_status.getD j false = colSolvedT puz q.board j) ∧
  (∀ j, j < m → colSolvedT puz q.board j = true →
    ∀ r, r < n → q.board.items.get? (r * n + j) ≠ some Cell.Empty) ∧
  (∀ r c, r < n → c < n → q.board.items.get? (r * n + c) = some Cell.CrossedOut →
    rowSolvedT puz q.board r = true ∨ (c < m ∧ colSolvedT puz q.board c = true))

theorem rowPhase_step (puz : Puzzle C) (n k : Nat) (q : Picross C) (hk : k < n)
    (hP : RowPhase puz n k q) : RowPhase puz n (k + 1) (q.check_rowT k) := by
  obtain ⟨hG, hauto, hpz, hwn, hhn, hbits, hJ, hX⟩ := hP
  have hk' : k < q.board.height := by rw [hhn]; exact hk
  obtain ⟨hpz1, hauto1, hrs1, hcs1, hb1, hBE1, hG1⟩ := check_rowT_shape q k hG hauto hk'
  obtain ⟨_, hNe1, hEq1⟩ := rowPassT_spec q.puzzle q.board k
    (rowSolvedT q.puzzle q.board k) hk' hG.1
  rw [← hb1] at hNe1 hEq1
  rw [hwn] at hNe1
  rw [hpz, hwn] at hEq1
  have hstabR : ∀ i, rowSolvedT puz (q.check_rowT k).board i = rowSolvedT puz q.board i :=
    fun i => rowSolvedT_congr hBE1 puz i
  refine ⟨hG1, hauto1, hpz1.trans hpz, hBE1.1.trans hwn, hBE1.2.1.trans hhn, ?_, ?_, ?_⟩
  · intro i hi
    rw [hstabR i, hrs1, hpz]
    by_cases hik : i = k
    · subst hik
      rw [getD_set_eq (show i < q.row_status.length by rw [hG.2.2.2.1, hhn]; exact hk)]
    · rw [getD_set_ne _ hik]
      exact hbits i (by omega)
  · intro i hi hsolved c hc
    rw [hstabR i] at hsolved
    by_cases hik : i = k
    · subst hik
      rw [hEq1 c hc, if_pos hsolved]
      exact crossResult_ne_empty _
    · rw [hNe1 _ (fun c' hc' heq => hik (flatIdx_inj hc hc' heq).1)]
      exact hJ i (by omega) hsolved c hc
  · intro r c hr hc hcell
    rw [hstabR r]
    by_cases hrk : r = k
    · subst hrk
      rw [hEq1 c hc] at hcell
      cases hrb : rowSolvedT puz q.board r with
      | true => exact ⟨by omega, rfl⟩
      | false =>
        rw [hrb] at hcell
        rw [if_neg (by simp)] at hcell
        obtain ⟨hold, _⟩ := revertResult_crossed _ _ hcell
        obtain ⟨hlt, _⟩ := hX r c hr hc hold
        omega
    · rw [hNe1 _ (fun c' hc' heq => hrk (flatIdx_inj hc hc' heq).1)] at hcell
      obtain ⟨hlt, hs⟩ := hX r c hr hc hcell
      exact ⟨by omega, hs⟩

theorem colPhase_step (puz : Puzzle C) (n m : Nat) (q : Picross C) (hm : m < n)
    (hP : ColPhase puz n m q) : ColPhase puz n (m + 1) (q.check_columnT m) := by
  obtain ⟨hG, hauto, hpz, hwn, hhn, hrbits, hrJ, hcbits, hcJ, hX⟩ := hP
  have hm' : m < q.board.width := by rw [hwn]; exact hm
  obtain ⟨hpz1, hauto1, hrs1, hcs1, hb1, hBE1, hG1⟩ := check_columnT_shape q m hG hauto hm'
  obtain ⟨_, hNe1, hEq1⟩ := colPassT_spec q.puzzle q.board m
    (colSolvedT q.puzzle q.board m) hm' hG.1
  rw [← hb1] at hNe1 hEq1
  rw [hwn, hhn] at hNe1
  rw [hpz, hwn, hhn] at hEq1
  have hstabR : ∀ i, rowSolvedT puz (q.check_columnT m).board i = rowSolvedT puz q.board i :=
    fun i => rowSolvedT_congr hBE1 puz i
  have hstabC : ∀ j, colSolvedT puz (q.check_columnT m).board j = colSolvedT puz q.board j :=
    fun j => colSolvedT_congr hBE1 puz j
  refine ⟨hG1, hauto1, hpz1.trans hpz, hBE1.1.trans hwn, hBE1.2.1.trans hhn,
    ?_, ?_, ?_, ?_, ?_⟩
  · intro i hi
    rw [hstabR i, hrs1]
    exact hrbits i hi
  · intro i hi hsolved c hc
    rw [hstabR i] at hsolved
    by_cases hcm : c = m
    · subst hcm
      rw [hEq1 i hi]
      cases hcb : colSolvedT puz q.board c with
      | true =>
        rw [if_pos rfl]
        exact crossResult_ne_empty _
      | false =>
        rw [if_neg (by simp)]
        exact revertResult_ne_empty _ _ hsolved (hrJ i hi hsolved c hc)
    · rw [hNe1 _ (fun r' hr' heq => hcm (flatIdx_inj hc hm heq).2)]
      exact hrJ i hi hsolved c hc
  · intro j hj
    rw [hstabC j, hcs1, hpz]
    by_cases hjm : j = m
    · subst hjm
      rw [getD_set_eq (show j < q.column_status.length by rw [hG.2.2.2.2, hwn]; exact hm)]
    · rw [getD_set_ne _ hjm]
      exact hcbits j (by omega)
  · intro j hj hsolved r hr
    rw [hstabC j] at hsolved
    by_cases hjm : j = m
    · subst hjm
      rw [hEq1 r hr, if_pos hsolved]
      exact crossResult_ne_empty _
    · have hjn : j < n := by omega
      rw [hNe1 _ (fun r' hr' heq => hjm (flatIdx_inj hjn hm heq).2)]
      exact hcJ j (by omega) hsolved r hr
  · intro r c hr hc hcell
    rw [hstabR r, hstabC c]
    by_cases hcm : c = m
    · subst hcm
      rw [hEq1 r hr] at hcell
      cases hcb : colSolvedT puz q.board c with
      | true => exact Or.inr ⟨by omega, rfl⟩
      | false =>
        rw [hcb] at hcell
        rw [if_neg (by simp)] at hcell
        obtain ⟨hold, hrs⟩ := revertResult_crossed _ _ hcell
        exact Or.inl hrs
    · rw [hNe1 _ (fun r' hr' heq => hcm (flatIdx_inj hc hm heq).2)] at hcell
      rcases hX r c hr hc hcell with h | ⟨h1, h2⟩
      · exact Or.inl h
      · exact Or.inr ⟨by omega, h2⟩

theorem rowPhase_to_colPhase (puz : Puzzle C) (n : Nat) (q : Picross C)
    (hP : RowPhase puz n n q) : ColPhase puz n 0 q := by
  obtain ⟨hG, hauto, hpz, hwn, hhn, hbits, hJ, hX⟩ := hP
  refine ⟨hG, hauto, hpz, hwn, hhn, hbits, hJ, ?_, ?_, ?_⟩
  · intro j hj; omega
  · intro j hj; omega
  · intro r c hr hc hcell
    exact Or.inl (hX r c hr hc hcell).2

theorem colPhase_to_inv (puz : Puzzle C) (n : Nat) (q : Picross C)
    (hP : ColPhase puz n n q) : CtrlInv q := by
  obtain ⟨hG, hauto, hpz, hwn, hhn, hrbits, hrJ, hcbits, hcJ, hX⟩ := hP
  refine ⟨hG, hauto, ⟨?_, ?_⟩, ⟨?_, ?_⟩, ?_⟩
  · intro i hi
    rw [hhn] at hi
    rw [hpz]
    exact hrbits i hi
  · intro j hj
    rw [hwn] at hj
    rw [hpz]
    exact hcbits j hj
  · intro i hi hsolved c hc
    rw [hhn] at hi
    rw [hwn] at hc
    rw [hpz] at hsolved
    rw [hwn]
    exact hrJ i hi hsolved c hc
  · intro j hj hsolved r hr
    rw [hwn] at hj
    rw [hhn] at hr
    rw [hpz] at hsolved
    rw [hwn]
    exact hcJ j hj hsolved r hr
  · intro r c hr hc hcell
    rw [hhn] at hr
    rw [hwn] at hc hcell
    rw [hpz]
    rcases hX r c hr hc hcell with h | ⟨_, h⟩
    · exact Or.inl h
    · exact Or.inr h

theorem CtrlInv_newT (puz : Puzzle C)
    (hsq : puz.row_constraints.length = puz.column_constraints.length) :
    CtrlInv (Picross.newT puz) := by
  have hbase : RowPhase puz puz.column_constraints.length 0 ({
      puzzle := puz
      board := Board.new_empty puz.row_constraints.length puz.column_constraints.length
      row_status := List.replicate puz.row_constraints.length false
      column_status := List.replicate puz.column_constraints.length false
      auto_cross := true } : Picross C) := by
    refine ⟨⟨?_, ?_, ?_, ?_, ?_⟩, rfl, rfl, ?_, rfl, ?_, ?_, ?_⟩
    · simp [Board.new_empty]
    · exact hsq
    · exact hsq.symm
    · simp [Board.new_empty, List.length_replicate, hsq]
    · simp [Board.new_empty, List.length_replicate, hsq]
    · exact hsq
    · intro i hi; omega
    · intro i hi; omega
    · intro r c hr hc hcell
      exfalso
      rcases List.get?_eq_some.mp hcell with ⟨hlt, hg⟩
      have hg' : (List.replicate
          (puz.row_constraints.length * puz.column_constraints.length)
          (Cell.Empty : Cell C)).get
          ⟨r * puz.column_constraints.length + c, hlt⟩ = Cell.CrossedOut := hg
      rw [List.get_replicate] at hg'
      exact absurd hg' (by simp)
  have h1 := foldl_range_invariant (fun (q : Picross C) r => q.check_rowT r)
    (RowPhase puz puz.column_constraints.length) puz.column_constraints.length _ hbase
    (fun k s hk hP => rowPhase_step puz puz.column_constraints.length k s hk hP)
  have h2base := rowPhase_to_colPhase puz puz.column_constraints.length _ h1
  have hpw : ((List.range puz.column_constraints.length).foldl
      (fun (q : Picross C) r => q.check_rowT r)
      ({
        puzzle := puz
        board := Board.new_empty puz.row_constraints.length puz.column_constraints.length
        row_status := List.replicate puz.row_constraints.length false
        column_status := List.replicate puz.column_constraints.length false
        auto_cross := true } : Picross C)).width = puz.column_constraints.length :=
    h1.2.2.2.1
  show CtrlInv ((List.range (((List.range puz.column_constraints.length).foldl
      (fun (q : Picross C) r => q.check_rowT r)
      ({
        puzzle := puz
        board := Board.new_empty puz.row_constraints.length puz.column_constraints.length
        row_status := List.replicate puz.row_constraints.length false
        column_status := List.replicate puz.column_constraints.length false
        auto_cross := true } : Picross C)).width)).foldl
      (fun (q : Picross C) c => q.check_columnT c)
      ((List.range puz.column_constraints.length).foldl
        (fun (q : Picross C) r => q.check_rowT r)
        ({
          puzzle := puz
          board := Board.new_empty puz.row_constraints.length puz.column_constraints.length
          row_status := List.replicate puz.row_constraints.length false
          column_status := List.replicate puz.column_constraints.length false
          auto_cross := true } : Picross C)))
  rw [hpw]
  exact colPhase_to_inv puz puz.column_constraints.length _
    (foldl_range_invariant (fun (q : Picross C) c => q.check_columnT c)
      (ColPhase puz puz.column_constraints.length) puz.column_constraints.length _ h2base
      (fun m s hm hP => colPhase_step puz puz.column_constraints.length m s hm hP))

/-- Every reachable controller state satisfies the controller invariant. -/
theorem reachable_inv {p : Picross C} (h : Reachable p) : CtrlInv p := by
  induction h with
  | init puz p hnew =>
    have hsq := new?_square puz p hnew
    rw [new?_eq puz hsq] at hnew
    obtain rfl := Option.some.inj hnew
    exact CtrlInv_newT puz hsq
  | step q p' m row col hreach hrow hcol hmut ih =>
    rw [mutate?_eq q m row col ih.1 ih.2.1 hrow hcol] at hmut
    obtain rfl := Option.some.inj hmut
    exact CtrlInv_mutateT q m row col ih hrow hcol

end Construction

section ClaimSupport

variable {C : Type} [DecidableEq C]

/-- Every run recorded by `groupRuns` has length at least 1. -/
theorem groupRuns_size_pos {α : Type} [DecidableEq α] (l : List α) :
    ∀ g ∈ groupRuns l, 1 ≤ g.2 := by
  have main : ∀ (n : Nat) (l : List α), l.length ≤ n → ∀ g ∈ groupRuns l, 1 ≤ g.2 := by
    intro n
    induction n with
    | zero =>
      intro l hl g hg
      have hnil : l = [] := List.eq_nil_of_length_eq_zero (by omega)
      subst hnil
      simp [groupRuns] at hg
    | succ n ih =>
      intro l hl g hg
      cases l with
      | nil => simp [groupRuns] at hg
      | cons a rest =>
        rw [groupRuns_cons] at hg
        rcases List.mem_cons.mp hg with h | h
        · subst h
          simp
        · refine ih (rest.dropWhile fun b => b = a) ?_ g h
          have hd := length_dropWhile_le' (fun b => decide (b = a)) rest
          simp only [List.length_cons] at hl
          omega
  exact main l.length l (le_refl _)

/-- Every observed run of a line has size at least 1. -/
theorem specRuns_size_pos (L : List (Cell C)) : ∀ g ∈ specRuns L, 1 ≤ g.2 := by
  intro g hg
  rw [specRuns_eq_filterMap] at hg
  rcases List.mem_filterMap.mp hg with ⟨a, ha, hfa⟩
  obtain ⟨ov, n⟩ := a
  cases ov with
  | none => simp [runFilter] at hfa
  | some v =>
    have hfa' : some (v, n) = some g := hfa
    obtain rfl := Option.some.inj hfa'
    exact groupRuns_size_pos _ (some v, n) ha

/-- A successful row solvedness query implies the row index is in range of
the row constraint group. -/
theorem row_is_solved?_bound (puz : Puzzle C) (b : Board C) (i : Nat) (x : Bool)
    (h : puz.row_is_solved? b i = some x) : i < puz.row_constraints.length := by
  unfold Puzzle.row_is_solved? at h
  cases hk : puz.row_constraints.get? i with
  | none =>
    rw [hk] at h
    simp at h
  | some k =>
    obtain ⟨hlt, _⟩ := List.get?_eq_some.mp hk
    exact hlt

/-- A successful column solvedness query implies the column index is in
range of the column constraint group. -/
theorem column_is_solved?_bound (puz : Puzzle C) (b : Board C) (j : Nat) (x : Bool)
    (h : puz.column_is_solved? b j = some x) : j < puz.column_constraints.length := by
  unfold Puzzle.column_is_solved? at h
  cases hk : puz.column_constraints.get? j with
  | none =>
    rw [hk] at h
    simp at h
  | some k =>
    obtain ⟨hlt, _⟩ := List.get?_eq_some.mp hk
    exact hlt

/-- On a good auto-cross state, the implemented order (row bit and row pass,
then column bit and column pass) coincides with the reference that computes
both bits on the original board before either pass runs: the row pass
preserves the `toOpt` projection, so the column bit is unaffected. -/
theorem checkT_eq_checkBothFirstT (p : Picross C) (row col : Nat) (hG : Good p)
    (hauto : p.auto_cross = true) (hrow : row < p.board.height) :
    p.checkT row col = p.checkBothFirstT row col := by
  obtain ⟨hpz1, hauto1, hrs1, hcs1, hb1, hBE1, hG1⟩ := check_rowT_shape p row hG hauto hrow
  have hcb : colSolvedT (p.check_rowT row).puzzle (p.check_rowT row).board col
      = colSolvedT p.puzzle p.board col := by
    rw [hpz1]
    exact colSolvedT_congr hBE1 p.puzzle col
  have hrhsb : (p.checkBothFirstT row col).board =
      (if p.auto_cross then
        colPassT p.puzzle (rowPassT p.puzzle p.board row (rowSolvedT p.puzzle p.board row)) col
          (colSolvedT p.puzzle p.board col)
      else p.board) := rfl
  show (p.check_rowT row).check_columnT col = p.checkBothFirstT row col
  rw [check_columnT_eq (p.check_rowT row) col hauto1]
  apply Picross.ext_state
  · show (p.check_rowT row).puzzle = p.puzzle
    exact hpz1
  · show colPassT (p.check_rowT row).puzzle (p.check_rowT row).board col
        (colSolvedT (p.check_rowT row).puzzle (p.check_rowT row).board col)
      = (p.checkBothFirstT row col).board
    rw [hrhsb, if_pos hauto, hcb, hpz1, hb1]
  · show (p.check_rowT row).row_status = p.row_status.set row (rowSolvedT p.puzzle p.board row)
    exact hrs1
  · show (p.check_rowT row).column_status.set col
        (colSolvedT (p.check_rowT row).puzzle (p.check_rowT row).board col)
      = p.column_status.set col (colSolvedT p.puzzle p.board col)
    rw [hcs1, hcb]
  · show (p.check_rowT row).auto_cross = p.auto_cross
    rw [hauto1, hauto]

end ClaimSupport

section Examples

/-- A non-square test puzzle: one row constraint, two column constraints. -/
def puzzleOneByTwo : Puzzle Unit := ⟨[[]], [[], []]⟩

/-- A square test puzzle containing a `ConstraintEntry` of size 0. -/
def sizeZeroPuzzle : Puzzle Unit := ⟨[[⟨(), 0⟩]], [[]]⟩

/-- The 1×1 puzzle whose single row and single column are unconstrained. -/
def emptyPuzzle1 : Puzzle Unit := ⟨[[]], [[]]⟩

/-- A 2×2 puzzle asking for one filled cell in every row and column. -/
def wrapPuzzle : Puzzle Unit :=
  ⟨[[⟨(), 1⟩], [⟨(), 1⟩]], [[⟨(), 1⟩], [⟨(), 1⟩]]⟩

/-- The controller state `Picross.new?` builds from `emptyPuzzle1`: the
empty constraints hold immediately, so the single cell is auto-crossed and
both status bits are set. -/
def pOne : Picross Unit :=
  ⟨emptyPuzzle1, ⟨[Cell.CrossedOut], 1, 1⟩, [true], [true], true⟩

/-- The controller state `Picross.new?` builds from `wrapPuzzle`: no line
is satisfied by the empty board, so nothing is annotated. -/
def pW2 : Picross Unit :=
  ⟨wrapPuzzle,
    ⟨[Cell.Empty, Cell.Empty, Cell.Empty, Cell.Empty], 2, 2⟩,
    [false, false], [false, false], true⟩

end Examples

section Claims

variable {C : Type} [DecidableEq C]

/-- Claim C1 (the code contradicts it): the claim says the board is sized
with height `R` (the row-group length) and width `C` (the column-group
length) and that construction succeeds for every puzzle, including
non-square ones. `Picross::new` instead passes `(R, C)` to
`Board::new_empty(width, height)`, so the board it actually builds has
width `R` and height `C`; on the non-square `puzzleOneByTwo` (R = 1,
C = 2) the board is 1 wide and 2 high, and the construction re-check
loops then index out of range and panic, so construction fails. -/
theorem C1_new_swapped_dims_nonsquare_fails :
    (Board.new_empty puzzleOneByTwo.row_constraints.length
      puzzleOneByTwo.column_constraints.length : Board Unit).width = 1 ∧
    (Board.new_empty puzzleOneByTwo.row_constraints.length
      puzzleOneByTwo.column_constraints.length : Board Unit).height = 2 ∧
    Picross.new? puzzleOneByTwo = none := by decide

/-- Claim C2: for every constraint `K` and finite line `L`, the run
matcher of `Puzzle::is_solved` returns true iff the sequence of maximal
runs of `L` — ignored (`Empty`/`CrossedOut`) cells skipped, consecutive
`Filled` cells with equal values grouped, a new run on every value
change — is element-wise equal, in order and length, to `K`'s entries as
`(value, size)` pairs; in particular the empty constraint is satisfied
iff no run is observed. -/
theorem C2_run_matcher_characterisation (K : Constraint C) (L : List (Cell C)) :
    (lineSolved K L = true ↔ entriesOf K = specRuns L) ∧
    (lineSolved ([] : Constraint C) L = true ↔ specRuns L = []) := by
  have hmain : ∀ K' : Constraint C, lineSolved K' L = true ↔ entriesOf K' = specRuns L := by
    intro K'
    unfold lineSolved
    rw [observedRuns_eq_specRuns]
    exact matchEntries_eq_true_iff _ _
  refine ⟨hmain K, ?_⟩
  rw [hmain []]
  show ([] : List (C × Nat)) = specRuns L ↔ specRuns L = []
  exact eq_comm

/-- Claim C3: in every reachable controller state the cached solved-bit
vectors agree with recomputation — `row_is_solved` returns exactly the
cached `row_status` bit for every in-range row, likewise for columns —
and consequently `is_solved` is true iff every row and every column
currently satisfies its constraint. -/
theorem C3_status_cache (p : Picross C) (hp : Reachable p) :
    (∀ i, i < p.board.height →
      p.puzzle.row_is_solved? p.board i = some (p.row_status.getD i false)) ∧
    (∀ j, j < p.board.width →
      p.puzzle.column_is_solved? p.board j = some (p.column_status.getD j false)) ∧
    (p.is_solvedB = true ↔
      ((∀ i, i < p.board.height → p.puzzle.row_is_solved? p.board i = some true) ∧
       (∀ j, j < p.board.width → p.puzzle.column_is_solved? p.board j = some true))) := by
  obtain ⟨hG, hauto, ⟨hSr, hSc⟩, _, _⟩ := reachable_inv hp
  have hrow_eq : ∀ i, i < p.board.height →
      p.puzzle.row_is_solved? p.board i = some (p.row_status.getD i false) := by
    intro i hi
    rw [row_is_solved?_eq p.puzzle p.board i (by rw [hG.2.1]; exact hi)
      (by rw [hG.1]; exact rowSliceBound hi), hSr i hi]
  have hcol_eq : ∀ j, j < p.board.width →
      p.puzzle.column_is_solved? p.board j = some (p.column_status.getD j false) := by
    intro j hj
    rw [column_is_solved?_eq p.puzzle p.board j (by rw [hG.2.2.1]; exact hj), hSc j hj]
  refine ⟨hrow_eq, hcol_eq, ?_⟩
  constructor
  · intro hall
    unfold Picross.is_solvedB at hall
    rw [Bool.and_eq_true, List.all_eq_true, List.all_eq_true] at hall
    obtain ⟨hr, hc⟩ := hall
    constructor
    · intro i hi
      rw [hrow_eq i hi]
      have hlt : i < p.row_status.length := by rw [hG.2.2.2.1]; exact hi
      have hx := hr _ (List.get?_mem (getD_of_get? hlt false))
      simp only [id_eq] at hx
      rw [hx]
    · intro j hj
      rw [hcol_eq j hj]
      have hlt : j < p.column_status.length := by rw [hG.2.2.2.2]; exact hj
      have hx := hc _ (List.get?_mem (getD_of_get? hlt false))
      simp only [id_eq] at hx
      rw [hx]
  · rintro ⟨hr, hc⟩
    unfold Picross.is_solvedB
    rw [Bool.and_eq_true, List.all_eq_true, List.all_eq_true]
    constructor
    · intro x hx
      obtain ⟨n, hn⟩ := List.mem_iff_get?.mp hx
      obtain ⟨hlt, _⟩ := List.get?_eq_some.mp hn
      have hnh : n < p.board.height := by rw [← hG.2.2.2.1]; exact hlt
      have h1 := hr n hnh
      rw [hrow_eq n hnh] at h1
      have h2 : p.row_status.getD n false = true := Option.some.inj h1
      have h3 : p.row_status.getD n false = x := by
        rw [List.getD_eq_get?, hn]
        rfl
      show id x = true
      rw [id_eq, ← h3]
      exact h2
    · intro x hx
      obtain ⟨n, hn⟩ := List.mem_iff_get?.mp hx
      obtain ⟨hlt, _⟩ := List.get?_eq_some.mp hn
      have hnh : n < p.board.width := by rw [← hG.2.2.2.2]; exact hlt
      have h1 := hc n hnh
      rw [hcol_eq n hnh] at h1
      have h2 : p.column_status.getD n false = true := Option.some.inj h1
      have h3 : p.column_status.getD n false = x := by
        rw [List.getD_eq_get?, hn]
        rfl
      show id x = true
      rw [id_eq, ← h3]
      exact h2

/-- Witness for claim C3 on the concrete reachable state `pOne`. -/
theorem C3_status_cache_witness :
    pOne.puzzle.row_is_solved? pOne.board 0 = some (pOne.row_status.getD 0 false) :=
  (C3_status_cache pOne (Reachable.init emptyPuzzle1 pOne (by decide))).1 0 (by decide)

/-- Claim C5: on every reachable state and in-range coordinates, the
implemented re-check (row bit and row annotation pass, then column bit
and column annotation pass) returns exactly the reference state that
computes both solved bits on the original board before applying either
annotation pass. -/
theorem C5_check_refines_bits_first (p : Picross C) (hp : Reachable p) (row col : Nat)
    (hrow : row < p.board.height) (hcol : col < p.board.width) :
    p.check? row col = some (p.checkBothFirstT row col) := by
  have hI := reachable_inv hp
  rw [check?_eq p row col hI.1 hI.2.1 hrow hcol,
    checkT_eq_checkBothFirstT p row col hI.1 hI.2.1 hrow]

/-- Witness for claim C5 on the concrete reachable state `pW2`. -/
theorem C5_check_refines_bits_first_witness :
    pW2.check? 0 0 = some (pW2.checkBothFirstT 0 0) :=
  C5_check_refines_bits_first pW2 (Reachable.init wrapPuzzle pW2 (by decide)) 0 0
    (by decide) (by decide)

/-- Claim C6: on every reachable state, clearing an in-range cell that is
already `Empty` returns the state completely unchanged — every cell and
both solved-bit vectors included. -/
theorem C6_clear_on_empty_noop (p : Picross C) (hp : Reachable p) (row col : Nat)
    (hrow : row < p.board.height) (hcol : col < p.board.width)
    (hcell : p.board.get? row col = some Cell.Empty) :
    p.clear_at? row col = some p := by
  have hI := reachable_inv hp
  have hidx : row * p.board.width + col < p.board.items.length := by
    rw [hI.1.1]
    exact flatIdx_lt hrow hcol
  show (do
    let b ← p.board.set? row col Cell.Empty
    Picross.check? { p with board := b } row col) = some p
  rw [Board.set?_eq_setT p.board row col Cell.Empty hidx]
  simp only [Option.bind_eq_bind, Option.some_bind]
  rw [setT_same p.board hcell]
  show p.check? row col = some p
  rw [check?_eq p row col hI.1 hI.2.1 hrow hcol, checkT_noop p row col hI hrow hcol]

/-- Witness for claim C6 on the concrete reachable state `pW2`. -/
theorem C6_clear_on_empty_noop_witness : pW2.clear_at? 0 0 = some pW2 :=
  C6_clear_on_empty_noop pW2 (Reachable.init wrapPuzzle pW2 (by decide)) 0 0
    (by decide) (by decide) (by decide)

/-- Claim C7: the re-check is a fixed point under repetition — running
`check` a second time on the same row and column, with no intervening
mutation, returns the same state (no cell and no solved bit changes). -/
theorem C7_recheck_fixed_point (p : Picross C) (hp : Reachable p) (row col : Nat)
    (hrow : row < p.board.height) (hcol : col < p.board.width) :
    (p.check? row col).bind (fun q => q.check? row col) = p.check? row col := by
  have hI := reachable_inv hp
  rw [check?_eq p row col hI.1 hI.2.1 hrow hcol, checkT_noop p row col hI hrow hcol]
  show p.check? row col = some p
  rw [check?_eq p row col hI.1 hI.2.1 hrow hcol, checkT_noop p row col hI hrow hcol]

/-- Witness for claim C7 on the concrete reachable state `pW2`. -/
theorem C7_recheck_fixed_point_witness :
    (pW2.check? 0 0).bind (fun q => q.check? 0 0) = pW2.check? 0 0 :=
  C7_recheck_fixed_point pW2 (Reachable.init wrapPuzzle pW2 (by decide)) 0 0
    (by decide) (by decide)

end Claims

section ClaimsTwo

variable {C : Type} [DecidableEq C]

/-- Claim C4: with auto-cross on, after the re-check triggered by any
mutation at in-range (row, col): if the row is now satisfied, no cell of
that row is `Empty`; if it is not satisfied, every `CrossedOut` cell of
that row lies on a column that is itself currently satisfied (all others
were reverted to `Empty`); and symmetrically for the column. -/
theorem C4_auto_marks (p : Picross C) (hp : Reachable p) (m : Mutation C)
    (row col : Nat) (hrow : row < p.board.height) (hcol : col < p.board.width)
    (q : Picross C) (hq : p.mutate? m row col = some q) :
    (q.puzzle.row_is_solved? q.board row = some true →
      ∀ c, c < q.board.width → q.board.get? row c ≠ some Cell.Empty) ∧
    (q.puzzle.row_is_solved? q.board row = some false →
      ∀ c, c < q.board.width → q.board.get? row c = some Cell.CrossedOut →
        q.puzzle.column_is_solved? q.board c = some true) ∧
    (q.puzzle.column_is_solved? q.board col = some true →
      ∀ r, r < q.board.height → q.board.get? r col ≠ some Cell.Empty) ∧
    (q.puzzle.column_is_solved? q.board col = some false →
      ∀ r, r < q.board.height → q.board.get? r col = some Cell.CrossedOut →
        q.puzzle.row_is_solved? q.board r = some true) := by
  have hIq : CtrlInv q := reachable_inv (Reachable.step p q m row col hp hrow hcol hq)
  obtain ⟨hG, hauto, _, ⟨hJr, hJc⟩, hJ2⟩ := hIq
  refine ⟨?_, ?_, ?_, ?_⟩
  · intro hsolved c hc
    have hrowb : row < q.puzzle.row_constraints.length :=
      row_is_solved?_bound q.puzzle q.board row true hsolved
    have hrowh : row < q.board.height := by rw [← hG.2.1]; exact hrowb
    rw [row_is_solved?_eq q.puzzle q.board row hrowb
      (by rw [hG.1]; exact rowSliceBound hrowh)] at hsolved
    have hrb : rowSolvedT q.puzzle q.board row = true := Option.some.inj hsolved
    exact hJr row hrowh hrb c hc
  · intro hunsolved c hc hcross
    have hrowb : row < q.puzzle.row_constraints.length :=
      row_is_solved?_bound q.puzzle q.board row false hunsolved
    have hrowh : row < q.board.height := by rw [← hG.2.1]; exact hrowb
    rw [row_is_solved?_eq q.puzzle q.board row hrowb
      (by rw [hG.1]; exact rowSliceBound hrowh)] at hunsolved
    have hrb : rowSolvedT q.puzzle q.board row = false := Option.some.inj hunsolved
    have hcb : colSolvedT q.puzzle q.board c = true := by
      rcases hJ2 row c hrowh hc hcross with h | h
      · rw [hrb] at h
        exact absurd h (by simp)
      · exact h
    rw [column_is_solved?_eq q.puzzle q.board c (by rw [hG.2.2.1]; exact hc), hcb]
  · intro hsolved r hr
    have hcolb : col < q.puzzle.column_constraints.length :=
      column_is_solved?_bound q.puzzle q.board col true hsolved
    have hcolw : col < q.board.width := by rw [← hG.2.2.1]; exact hcolb
    rw [column_is_solved?_eq q.puzzle q.board col hcolb] at hsolved
    have hcb : colSolvedT q.puzzle q.board col = true := Option.some.inj hsolved
    exact hJc col hcolw hcb r hr
  · intro hunsolved r hr hcross
    have hcolb : col < q.puzzle.column_constraints.length :=
      column_is_solved?_bound q.puzzle q.board col false hunsolved
    have hcolw : col < q.board.width := by rw [← hG.2.2.1]; exact hcolb
    rw [column_is_solved?_eq q.puzzle q.board col hcolb] at hunsolved
    have hcb : colSolvedT q.puzzle q.board col = false := Option.some.inj hunsolved
    have hrb : rowSolvedT q.puzzle q.board r = true := by
      rcases hJ2 r col hr hcolw hcross with h | h
      · exact h
      · rw [hcb] at h
        exact absurd h (by simp)
    rw [row_is_solved?_eq q.puzzle q.board r (by rw [hG.2.1]; exact hr)
      (by rw [hG.1]; exact rowSliceBound hr), hrb]

/-- Witness for claim C4 on the concrete reachable state `pOne` after a
`cross_out` mutation at (0, 0). -/
theorem C4_auto_marks_witness : pOne.board.get? 0 0 ≠ some Cell.Empty :=
  (C4_auto_marks pOne (Reachable.init emptyPuzzle1 pOne (by decide)) Mutation.crossOut
    0 0 (by decide) (by decide) pOne (by decide)).1 (by decide) 0 (by decide)

/-- Counterexample to claim C8 as stated: `sizeZeroPuzzle` contains a
`ConstraintEntry` of size 0, yet `Picross::new` succeeds — nothing
rejects it at construction time. -/
theorem C8_size_zero_counterexample :
    (Picross.new? sizeZeroPuzzle).isSome = true := by decide

/-- Claim C8 (amended): neither `Puzzle::new` nor `Picross::new` performs
shape validation, so a puzzle containing a `ConstraintEntry` of size 0 is
accepted at construction (second conjunct: concretely on
`sizeZeroPuzzle`); the violation surfaces during play instead, because a
constraint containing a size-0 entry is unsatisfiable — every observed
run has length at least 1, so no line ever matches it (first conjunct). -/
theorem C8_size_zero_amended :
    (∀ (e : ConstraintEntry C) (K : Constraint C) (L : List (Cell C)),
      e ∈ K → e.size = 0 → lineSolved K L = false) ∧
    (Picross.new? sizeZeroPuzzle).isSome = true := by
  constructor
  · intro e K L he hsz
    cases hls : lineSolved K L with
    | false => rfl
    | true =>
      exfalso
      unfold lineSolved at hls
      rw [observedRuns_eq_specRuns] at hls
      have heq : entriesOf K = specRuns L := (matchEntries_eq_true_iff _ _).mp hls
      have hmem : (e.value, e.size) ∈ entriesOf K := by
        unfold entriesOf
        exact List.mem_map_of_mem _ he
      rw [heq] at hmem
      have hpos := specRuns_size_pos L (e.value, e.size) hmem
      have hpos' : 1 ≤ e.size := hpos
      omega
  · decide

/-- Witness for the amended claim C8 at a concrete size-0 entry. -/
theorem C8_size_zero_witness :
    lineSolved [(⟨(), 0⟩ : ConstraintEntry Unit)] ([] : List (Cell Unit)) = false :=
  (@C8_size_zero_amended Unit _).1 ⟨(), 0⟩ [⟨(), 0⟩] [] (by decide) rfl

/-- Claim C9 (the code contradicts it): the spec says a mutation at an
out-of-bounds coordinate fails fast and writes no cell, never wrapping
onto a different in-range cell. `Board::get_mut` indexes the flat vector
at `row * width + col`, so on the reachable 2×2 state `pW2` the
out-of-range coordinate (0, 2) maps to flat index 2, which is the
in-range cell (1, 0): the write lands on that other cell, and
`cross_out(0, 2)` only panics afterwards, during its re-check of the
out-of-range column. -/
theorem C9_out_of_bounds_wrap :
    Picross.new? wrapPuzzle = some pW2 ∧
    pW2.board.get? 1 0 = some Cell.Empty ∧
    (pW2.board.set? 0 2 Cell.CrossedOut).map (fun b => b.get? 1 0) =
      some (some Cell.CrossedOut) ∧
    pW2.cross_out? 0 2 = none := by decide

/-- Counterexample to claim C10 as stated: on the reachable 1×1 state
obtained by `new` on `emptyPuzzle1` followed by `place` at (0, 0),
neither the row nor the column is satisfied at the moment of the call,
yet `cross_out(0, 0)` leaves the cell `CrossedOut`: crossing out the
`Filled` cell changes the observed runs, the row becomes satisfied, and
the mark sticks. -/
theorem C10_counterexample_filled :
    ((Picross.new? emptyPuzzle1).bind (fun q => q.place_at? () 0 0)).map
      (fun q =>
        (q.puzzle.row_is_solved? q.board 0, q.puzzle.column_is_solved? q.board 0,
          (q.cross_out? 0 0).map (fun r => r.board.get? 0 0))) =
    some (some false, some false, some (some Cell.CrossedOut)) := by decide

/-- Claim C10 (amended): the revert guarantee holds for cells that are not
`Filled`: on every reachable state, if the cell at in-range (row, col) is
currently `Empty` or `CrossedOut` — so the write cannot change any line's
satisfaction — and neither row nor column is satisfied at the moment of
the call, then `cross_out(row, col)` leaves that cell `Empty`: the
just-written mark is reverted by the auto-annotation pass. -/
theorem C10_cross_out_reverted (p : Picross C) (hp : Reachable p) (row col : Nat)
    (hrow : row < p.board.height) (hcol : col < p.board.width)
    (hcell : p.board.get? row col = some Cell.Empty ∨
      p.board.get? row col = some Cell.CrossedOut)
    (hrowu : p.puzzle.row_is_solved? p.board row = some false)
    (hcolu : p.puzzle.column_is_solved? p.board col = some false) :
    (p.cross_out? row col).map (fun q => q.board.get? row col) = some (some Cell.Empty) := by
  have hI := reachable_inv hp
  have hG := hI.1
  have hauto := hI.2.1
  have hrb : rowSolvedT p.puzzle p.board row = false := by
    rw [row_is_solved?_eq p.puzzle p.board row (by rw [hG.2.1]; exact hrow)
      (by rw [hG.1]; exact rowSliceBound hrow)] at hrowu
    exact Option.some.inj hrowu
  have hcb : colSolvedT p.puzzle p.board col = false := by
    rw [column_is_solved?_eq p.puzzle p.board col (by rw [hG.2.2.1]; exact hcol)] at hcolu
    exact Option.some.inj hcolu
  have hmeq : p.cross_out? row col = some (p.mutateT Mutation.crossOut row col) :=
    mutate?_eq p Mutation.crossOut row col hG hauto hrow hcol
  rw [hmeq, Option.map_some']
  suffices h : (p.mutateT Mutation.crossOut row col).board.get? row col = some Cell.Empty by
    rw [h]
  have hidx : row * p.board.width + col < p.board.items.length := by
    rw [hG.1]
    exact flatIdx_lt hrow hcol
  have hG1 : Good ({ p with board := p.board.setT row col Cell.CrossedOut } : Picross C) :=
    setT_good p row col Cell.CrossedOut hG
  have hBEw : BE ({ p with board := p.board.setT row col Cell.CrossedOut } :
      Picross C).board p.board := by
    refine ⟨rfl, rfl, ?_⟩
    show (p.board.items.set (row * p.board.width + col) Cell.CrossedOut).map Cell.toOpt
      = p.board.items.map Cell.toOpt
    rw [List.map_set]
    apply List.set_eq_of_get?
    rw [List.get?_map]
    rcases hcell with hcE | hcX
    · have hcE' : p.board.items.get? (row * p.board.width + col) = some Cell.Empty := hcE
      rw [hcE']
      rfl
    · have hcX' : p.board.items.get? (row * p.board.width + col) = some Cell.CrossedOut := hcX
      rw [hcX']
      rfl
  show ((({ p with board := p.board.setT row col Cell.CrossedOut } : Picross C).check_rowT
      row).check_columnT col).board.get? row col = some Cell.Empty
  set p1 : Picross C := { p with board := p.board.setT row col Cell.CrossedOut } with hp1def
  have hauto1' : p1.auto_cross = true := hauto
  have hrow1' : row < p1.board.height := hrow
  have hcolw1 : col < p1.board.width := hcol
  have hrb1 : rowSolvedT p1.puzzle p1.board row = false := by
    have hstep : rowSolvedT p.puzzle p1.board row = false := by
      rw [rowSolvedT_congr hBEw p.puzzle row]
      exact hrb
    exact hstep
  have hcb1 : colSolvedT p1.puzzle p1.board col = false := by
    have hstep : colSolvedT p.puzzle p1.board col = false := by
      rw [colSolvedT_congr hBEw p.puzzle col]
      exact hcb
    exact hstep
  obtain ⟨hpz1, hauto1, hrs1, hcs1, hb1, hBE1, hGq1⟩ :=
    check_rowT_shape p1 row hG1 hauto1' hrow1'
  set q1 : Picross C := p1.check_rowT row with hq1def
  rw [hrb1] at hb1
  have hcell1 : q1.board.items.get? (row * p1.board.width + col) = some Cell.Empty := by
    obtain ⟨_, _, hEq⟩ := rowPassT_spec p1.puzzle p1.board row false hrow1' hG1.1
    have hstep := hEq col hcolw1
    rw [if_neg (by simp)] at hstep
    have hcc : p1.board.items.get? (row * p1.board.width + col) = some Cell.CrossedOut :=
      Board.get?_setT_eq p.board Cell.CrossedOut hidx
    rw [if_pos ⟨hcc, hcb1⟩] at hstep
    rw [hb1]
    exact hstep
  have hauto_q1 : q1.auto_cross = true := hauto1
  have hcol_q1 : col < q1.board.width := by
    rw [hBE1.1]
    exact hcolw1
  have hrow_q1 : row < q1.board.height := by
    rw [hBE1.2.1]
    exact hrow1'
  obtain ⟨hpz2, hauto2, hrs2, hcs2, hb2, hBE2, hGq2⟩ :=
    check_columnT_shape q1 col hGq1 hauto_q1 hcol_q1
  have hcbq1 : colSolvedT q1.puzzle q1.board col = false := by
    rw [hpz1, colSolvedT_congr hBE1 p1.puzzle col]
    exact hcb1
  rw [hcbq1] at hb2
  obtain ⟨_, _, hEq2⟩ := colPassT_spec q1.puzzle q1.board col false hcol_q1 hGq1.1
  have hstep2 := hEq2 row hrow_q1
  rw [if_neg (by simp)] at hstep2
  have hnotc : ¬(q1.board.items.get? (row * q1.board.width + col) = some Cell.CrossedOut ∧
      rowSolvedT q1.puzzle q1.board row = false) := by
    intro hand
    have hcell1' : q1.board.items.get? (row * q1.board.width + col) = some Cell.Empty := by
      rw [show row * q1.board.width + col = row * p1.board.width + col by rw [hBE1.1]]
      exact hcell1
    rw [hcell1'] at hand
    exact absurd hand.1 (by simp)
  rw [if_neg hnotc] at hstep2
  show (q1.check_columnT col).board.items.get?
    (row * (q1.check_columnT col).board.width + col) = some Cell.Empty
  have hwfin : (q1.check_columnT col).board.width = q1.board.width := hBE2.1
  rw [hwfin, hb2, hstep2]
  rw [show row * q1.board.width + col = row * p1.board.width + col by rw [hBE1.1]]
  exact hcell1

/-- Witness for the amended claim C10 on the concrete reachable state
`pW2`, whose cell (0, 0) is `Empty` and whose row 0 and column 0 are both
unsatisfied. -/
theorem C10_cross_out_reverted_witness :
    (pW2.cross_out? 0 0).map (fun q => q.board.get? 0 0) = some (some Cell.Empty) :=
  C10_cross_out_reverted pW2 (Reachable.init wrapPuzzle pW2 (by decide)) 0 0
    (by decide) (by decide) (Or.inl (by decide)) (by decide) (by decide)

end ClaimsTwo
